import Mathlib

/-!
Shallow embedding of the `ginsta` telemetry extractor (Rust sources
`src/main.rs` and `src/bin/insgps.rs`).

Bytes are modelled as `Nat` values; byte buffers as `List Nat`.  The nom
parsers of the source become functions `List Nat → Except PErr (rest × value)`;
the `main` pipeline (seek / read_exact / parse) becomes explicit position
arithmetic over an in-memory file.  IEEE-754 `f64` values are modelled by
their 64-bit patterns: the Rust unary negation is exactly a sign-bit flip, and
`x < 0.0` holds exactly for sign-bit-set, non-NaN, non-zero patterns, so the
hemisphere sign logic is captured bit-exactly.
-/

namespace Ginsta

abbrev Byte := Nat

/-- The distinct failure channels of the embedded code: parse errors raised
by the nom combinators (`eof`, `tagMismatch`, `oneOfNoMatch`), the
`assert_eq!(frame_type, Index)` panic (`notIndex`), seeking before the start
of the file (`seekFail`), and `read_exact` hitting end-of-file (`ioEof`). -/
inductive PErr where
  | eof
  | tagMismatch
  | oneOfNoMatch
  | notIndex
  | seekFail
  | ioEof
  deriving Repr, DecidableEq

/-- nom `take(n)` on complete input. -/
def pTake (n : Nat) (input : List Byte) : Except PErr (List Byte × List Byte) :=
  if n ≤ input.length then .ok (input.drop n, input.take n) else .error .eof

/-- nom `tag(t)` on complete input. -/
def pTag (t : List Byte) (input : List Byte) : Except PErr (List Byte × List Byte) :=
  if input.take t.length = t then .ok (input.drop t.length, t) else .error .tagMismatch

/-- nom `one_of(s)` on complete input. -/
def pOneOf (s : List Byte) : List Byte → Except PErr (List Byte × Byte)
  | [] => .error .eof
  | b :: rest => if b ∈ s then .ok (rest, b) else .error .oneOfNoMatch

/-- Little-endian value of a byte list. -/
def leNat (bs : List Byte) : Nat := bs.foldr (fun b acc => b + 256 * acc) 0

/-- nom `le_u16()/le_u32()/le_u64()` (and the raw bits of `le_f64()`):
take `n` bytes, combine little-endian. -/
def pLeNat (n : Nat) (input : List Byte) : Except PErr (List Byte × Nat) :=
  (pTake n input).map (fun p => (p.1, leNat p.2))

/-- Reads a 32-bit pattern as twos-complement, for `le_i32()`. -/
def i32ofNat (n : Nat) : Int :=
  if n < 2 ^ 31 then (n : Int) else (n : Int) - 2 ^ 32

/-- nom `le_i32()`. -/
def pLeI32 (input : List Byte) : Except PErr (List Byte × Int) :=
  (pLeNat 4 input).map (fun p => (p.1, i32ofNat p.2))

/-- nom `count(p, n)`. -/
def pCount {α : Type} (p : List Byte → Except PErr (List Byte × α)) :
    Nat → List Byte → Except PErr (List Byte × List α)
  | 0, input => .ok (input, [])
  | n + 1, input =>
    match p input with
    | .error e => .error e
    | .ok (r1, a) =>
      match pCount p n r1 with
      | .error e => .error e
      | .ok (r2, as) => .ok (r2, a :: as)

/-- Embeds `HEADER_SIZE` from `main.rs`. -/
def HEADER_SIZE : Nat := 78

/-- Embeds `FRAME_HEADER_SIZE` from `main.rs`. -/
def FRAME_HEADER_SIZE : Nat := 6

/-- The 32-byte `SIGNATURE` constant of `main.rs`. -/
def SIGNATURE : List Byte :=
  [0x38, 0x64, 0x62, 0x34, 0x32, 0x64, 0x36, 0x39,
   0x34, 0x63, 0x63, 0x63, 0x34, 0x31, 0x38, 0x37,
   0x39, 0x30, 0x65, 0x64, 0x66, 0x66, 0x34, 0x33,
   0x39, 0x66, 0x65, 0x30, 0x32, 0x36, 0x62, 0x66]

structure TrailerMetadata where
  id : Nat
  size : Nat
  deriving Repr, DecidableEq

/-- Embeds `parse_trailer_metadata`: `(le_u16, le_u32)`. -/
def parse_trailer_metadata (data : List Byte) :
    Except PErr (List Byte × TrailerMetadata) :=
  match pLeNat 2 data with
  | .error e => .error e
  | .ok (r1, id) =>
    match pLeNat 4 r1 with
    | .error e => .error e
    | .ok (r2, size) => .ok (r2, ⟨id, size⟩)

structure Trailer where
  version_num : Int
  signature : List Byte
  metadata : List TrailerMetadata
  metadata_size : Nat
  deriving Repr, DecidableEq

/-- Embeds `header_parser` from `main.rs`: 7 metadata descriptors, `le_i32` version,
then the 32-byte signature tag; `metadata_size` is the `size` of the last
descriptor (the `.last().unwrap()` cannot fail: the list always has 7 items). -/
def parseHeader (header : List Byte) : Except PErr (List Byte × Trailer) :=
  match pCount parse_trailer_metadata 7 header with
  | .error e => .error e
  | .ok (r1, metadata) =>
    match pLeI32 r1 with
    | .error e => .error e
    | .ok (r2, version_num) =>
      match pTag SIGNATURE r2 with
      | .error e => .error e
      | .ok (r3, signature) =>
        .ok (r3, ⟨version_num, signature, metadata, (metadata.getLastD ⟨0, 0⟩).size⟩)

/-- The `FrameType` enumeration of `main.rs`. -/
inductive FrameType where
  | Raw
  | Index
  | Info
  | Thumbnail
  | Gyro
  | Exposure
  | ThumbnailExt
  | Timelapse
  | Gps
  | StarNum
  | ThreeAInTimestamp
  | Anchors
  | ThreeASimulation
  | ExposureSecondary
  | Magnetic
  | Euler
  | GyroSecondary
  | Speed
  | Tbox
  | Editor
  | Heartrate
  | ForwardDirection
  | Upview
  | ShellRecognitionData
  | Pos
  | TimelapseQuat
  deriving Repr, DecidableEq

/-- Embeds `FrameType::from_u8` (derived `FromPrimitive`): the byte is compared
against each discriminant (`Raw = -1` is never hit from a `u8`). -/
def FrameType.fromU8 (b : Byte) : Option FrameType :=
  if b = 0 then some .Index
  else if b = 1 then some .Info
  else if b = 2 then some .Thumbnail
  else if b = 3 then some .Gyro
  else if b = 4 then some .Exposure
  else if b = 5 then some .ThumbnailExt
  else if b = 6 then some .Timelapse
  else if b = 7 then some .Gps
  else if b = 8 then some .StarNum
  else if b = 9 then some .ThreeAInTimestamp
  else if b = 10 then some .Anchors
  else if b = 11 then some .ThreeASimulation
  else if b = 12 then some .ExposureSecondary
  else if b = 13 then some .Magnetic
  else if b = 14 then some .Euler
  else if b = 15 then some .GyroSecondary
  else if b = 16 then some .Speed
  else if b = 17 then some .Tbox
  else if b = 18 then some .Editor
  else if b = 19 then some .Heartrate
  else if b = 20 then some .ForwardDirection
  else if b = 21 then some .Upview
  else if b = 22 then some .ShellRecognitionData
  else if b = 23 then some .Pos
  else if b = 24 then some .TimelapseQuat
  else none

/-- Embeds `FrameType::from_u8(b).unwrap_or(FrameType::Raw)`. -/
def FrameType.fromU8OrRaw (b : Byte) : FrameType :=
  (FrameType.fromU8 b).getD .Raw

structure FrameTrailer where
  frame_version : Byte
  frame_type : FrameType
  frame_size : Int
  deriving Repr, DecidableEq

/-- Embeds `frame_trailer` from `main.rs`: `(take(1), take(1), le_i32)` — version
byte, type byte (with `Raw` fallback), signed 32-bit size. -/
def frame_trailer (frame : List Byte) : Except PErr (List Byte × FrameTrailer) :=
  match pTake 1 frame with
  | .error e => .error e
  | .ok (r1, ver) =>
    match pTake 1 r1 with
    | .error e => .error e
    | .ok (r2, ty) =>
      match pLeI32 r2 with
      | .error e => .error e
      | .ok (r3, size) => .ok (r3, ⟨ver.headD 0, FrameType.fromU8OrRaw (ty.headD 0), size⟩)

structure IndexFrameTrailer where
  frame_version : Byte
  frame_type : FrameType
  frame_size : Nat
  frame_offset : Nat
  deriving Repr, DecidableEq

/-- Embeds `parse_index` from `main.rs`: `(take(1), take(1), le_u32, le_u32)` — type
byte first, then version byte, then size and offset. -/
def parse_index (input : List Byte) : Except PErr (List Byte × IndexFrameTrailer) :=
  match pTake 1 input with
  | .error e => .error e
  | .ok (r1, ty) =>
    match pTake 1 r1 with
    | .error e => .error e
    | .ok (r2, ver) =>
      match pLeNat 4 r2 with
      | .error e => .error e
      | .ok (r3, size) =>
        match pLeNat 4 r3 with
        | .error e => .error e
        | .ok (r4, off) => .ok (r4, ⟨ver.headD 0, FrameType.fromU8OrRaw (ty.headD 0), size, off⟩)

/-- The loop of `many_till(parse_index, eof)`: stop exactly on empty input,
else run `parse_index` and continue on the rest.  Each iteration strictly
shrinks the input, so fuel `input.length` (supplied by `parse_index_frame`)
always suffices; the fuel-exhausted branch is unreachable. -/
def parseIndexLoop : Nat → List Byte → Except PErr (List IndexFrameTrailer)
  | _, [] => .ok []
  | 0, _ :: _ => .error .eof
  | fuel + 1, b :: rest =>
    match parse_index (b :: rest) with
    | .error e => .error e
    | .ok (r, entry) => (parseIndexLoop fuel r).map (entry :: ·)

/-- Embeds `parse_index_frame` from `main.rs`. -/
def parse_index_frame (frame : List Byte) : Except PErr (List IndexFrameTrailer) :=
  parseIndexLoop frame.length frame

/-- Decoded GPS record; the four `f64` fields hold the 64-bit IEEE-754
patterns. -/
structure GpsRecord where
  timestamp : Nat
  latitude : Nat
  longitude : Nat
  speed : Nat
  track : Nat
  altitude : Nat
  deriving Repr, DecidableEq

/-- The `NS` constant: bytes of `N` and `S`. -/
def NS : List Byte := [78, 83]

/-- The `EW` constant: bytes of `E` and `W`. -/
def EW : List Byte := [69, 87]

/-- Rust `-x` on `f64`: flip the sign bit of the 64-bit pattern. -/
def f64neg (x : Nat) : Nat :=
  if x < 2 ^ 63 then x + 2 ^ 63 else x - 2 ^ 63

/-- Meaning of `x < 0.0` for an `f64` pattern: sign bit set, magnitude nonzero
(excludes `-0.0`) and not a NaN (magnitude at most the infinity pattern). -/
def f64ltZero (x : Nat) : Prop :=
  2 ^ 63 ≤ x ∧ 0 < x % 2 ^ 63 ∧ x % 2 ^ 63 ≤ 0x7FF0000000000000

instance (x : Nat) : Decidable (f64ltZero x) := by
  unfold f64ltZero; infer_instance

/-- Meaning of `x > 0.0` for an `f64` pattern: sign bit clear, nonzero, not NaN. -/
def f64gtZero (x : Nat) : Prop :=
  x < 2 ^ 63 ∧ 0 < x ∧ x ≤ 0x7FF0000000000000

/-- Embeds `parse_gps_record` from `main.rs`: `le_u64` timestamp, 3 skipped bytes,
latitude with `N`/`S` byte, longitude with `E`/`W` byte, then speed, track,
altitude; a hemisphere byte of `S` (83) or `W` (87) negates the value. -/
def parse_gps_record (frame : List Byte) : Except PErr (List Byte × GpsRecord) :=
  match pLeNat 8 frame with
  | .error e => .error e
  | .ok (r1, timestamp) =>
  match pTake 3 r1 with
  | .error e => .error e
  | .ok (r2, _pad) =>
  match pLeNat 8 r2 with
  | .error e => .error e
  | .ok (r3, latitude) =>
  match pOneOf NS r3 with
  | .error e => .error e
  | .ok (r4, northsouth) =>
  match pLeNat 8 r4 with
  | .error e => .error e
  | .ok (r5, longitude) =>
  match pOneOf EW r5 with
  | .error e => .error e
  | .ok (r6, eastwest) =>
  match pLeNat 8 r6 with
  | .error e => .error e
  | .ok (r7, speed) =>
  match pLeNat 8 r7 with
  | .error e => .error e
  | .ok (r8, track) =>
  match pLeNat 8 r8 with
  | .error e => .error e
  | .ok (r9, altitude) =>
  .ok (r9, { timestamp
             latitude := if northsouth = 83 then f64neg latitude else latitude
             longitude := if eastwest = 87 then f64neg longitude else longitude
             speed, track, altitude })

/-- The loop of `many_till(parse_gps_record, eof)`; fueled like
`parseIndexLoop` (each success consumes 53 bytes, so `input.length` fuel is
always enough). -/
def parseGpsLoop : Nat → List Byte → Except PErr (List GpsRecord)
  | _, [] => .ok []
  | 0, _ :: _ => .error .eof
  | fuel + 1, b :: rest =>
    match parse_gps_record (b :: rest) with
    | .error e => .error e
    | .ok (r, rec) => (parseGpsLoop fuel r).map (rec :: ·)

/-- Embeds `parse_gps_frame` from `main.rs` (the trailing `assert_eq!(0, rest.len())`
always holds: the loop stops only on empty rest). -/
def parse_gps_frame (frame : List Byte) : Except PErr (List GpsRecord) :=
  parseGpsLoop frame.length frame

/-- Embeds `parse_gps_record` from `src/bin/insgps.rs`: `le_u32` timestamp (widened to
u64), 7 skipped bytes, then the identical tail. -/
def parse_gps_record_v2 (frame : List Byte) : Except PErr (List Byte × GpsRecord) :=
  match pLeNat 4 frame with
  | .error e => .error e
  | .ok (r1, timestamp) =>
  match pTake 7 r1 with
  | .error e => .error e
  | .ok (r2, _pad) =>
  match pLeNat 8 r2 with
  | .error e => .error e
  | .ok (r3, latitude) =>
  match pOneOf NS r3 with
  | .error e => .error e
  | .ok (r4, northsouth) =>
  match pLeNat 8 r4 with
  | .error e => .error e
  | .ok (r5, longitude) =>
  match pOneOf EW r5 with
  | .error e => .error e
  | .ok (r6, eastwest) =>
  match pLeNat 8 r6 with
  | .error e => .error e
  | .ok (r7, speed) =>
  match pLeNat 8 r7 with
  | .error e => .error e
  | .ok (r8, track) =>
  match pLeNat 8 r8 with
  | .error e => .error e
  | .ok (r9, altitude) =>
  .ok (r9, { timestamp
             latitude := if northsouth = 83 then f64neg latitude else latitude
             longitude := if eastwest = 87 then f64neg longitude else longitude
             speed, track, altitude })

/-- A well-formed encoded GPS record for the `main.rs` layout: 53 bytes,
laid out as timestamp (8), padding (3), latitude (8), an `N`/`S` byte,
longitude (8), an `E`/`W` byte, speed (8), track (8), altitude (8). -/
def wfGpsChunk (r : List Byte) : Prop :=
  ∃ ts pad lat lon sp tr al : List Byte, ∃ ns ew : Byte,
    ts.length = 8 ∧ pad.length = 3 ∧ lat.length = 8 ∧ lon.length = 8 ∧
    sp.length = 8 ∧ tr.length = 8 ∧ al.length = 8 ∧ ns ∈ NS ∧ ew ∈ EW ∧
    r = ts ++ (pad ++ (lat ++ (ns :: (lon ++ (ew :: (sp ++ (tr ++ al)))))))

/-! ### The `main` pipeline of `main.rs`, over an in-memory file -/

/-- Embeds `file.seek(SeekFrom::End(off))`: fails on a resulting negative position;
seeking past the end is legal. -/
def seekEnd (file : List Byte) (off : Int) : Except PErr Nat :=
  let p : Int := (file.length : Int) + off
  if p < 0 then .error .seekFail else .ok p.toNat

/-- Embeds `file.seek_relative(off)` from position `pos`. -/
def seekRel (pos : Nat) (off : Int) : Except PErr Nat :=
  let p : Int := (pos : Int) + off
  if p < 0 then .error .seekFail else .ok p.toNat

/-- Embeds a `read_exact` of `n` bytes at position `pos`: fails with an
`UnexpectedEof` I/O error when fewer than `n` bytes remain. -/
def readExact (file : List Byte) (pos n : Nat) : Except PErr (List Byte) :=
  if pos + n ≤ file.length then .ok ((file.drop pos).take n) else .error .ioEof

/-- Embeds `metadata_pos = file_len as u64 - metadata_size as u64` (wrapping u64
subtraction, as in a release build). -/
def metadataPos (file : List Byte) (t : Trailer) : Nat :=
  (file.length + (2 ^ 64 - t.metadata_size % 2 ^ 64)) % 2 ^ 64

/-- Embeds `frame_size as usize` for the `vec![0; ...]` / `read_exact` pair: the
`i32` is sign-extended to 64 bits and reinterpreted. -/
def i32ToUsize (i : Int) : Nat := (i % (2 ^ 64 : Int)).toNat

/-- Wraps an integer into the `i32` range by twos complement, as a release
build computes an overflowing `i32` operation. -/
def wrapI32 (i : Int) : Int := (i + 2 ^ 31) % 2 ^ 32 - 2 ^ 31

/-- The trailer read of `main`: seek to `End(-HEADER_SIZE)`, read `HEADER_SIZE`
bytes, parse with `header_parser`. -/
def readTrailer (file : List Byte) : Except PErr Trailer :=
  match seekEnd file (-(HEADER_SIZE : Int)) with
  | .error e => .error e
  | .ok p =>
    match readExact file p HEADER_SIZE with
    | .error e => .error e
    | .ok buf =>
      match parseHeader buf with
      | .error e => .error e
      | .ok (_, t) => .ok t

/-- The footer read of `main`: seek to `End(-HEADER_SIZE + FRAME_HEADER_SIZE)`,
step back `FRAME_HEADER_SIZE`, read 6 bytes, parse with `frame_trailer`. -/
def readFooter (file : List Byte) : Except PErr FrameTrailer :=
  match seekEnd file (-(HEADER_SIZE : Int) + (FRAME_HEADER_SIZE : Int)) with
  | .error e => .error e
  | .ok p1 =>
    match seekRel p1 (-(FRAME_HEADER_SIZE : Int)) with
    | .error e => .error e
    | .ok p2 =>
      match readExact file p2 FRAME_HEADER_SIZE with
      | .error e => .error e
      | .ok fb =>
        match frame_trailer fb with
        | .error e => .error e
        | .ok (_, ft) => .ok ft

/-- The index payload read of `main`: from the position just after the footer
(`End(-HEADER_SIZE + FRAME_HEADER_SIZE)`), seek by
`(frame_size + FRAME_HEADER_SIZE as i32) * -1` — both the addition and the
negation are `i32` operations that wrap in a release build (`wrapI32`), and
the result is sign-extended to the 64-bit seek offset by `.into()` — then
`read_exact(frame_size)` bytes. -/
def readIndexPayload (file : List Byte) (ft : FrameTrailer) : Except PErr (List Byte) :=
  match seekEnd file (-(HEADER_SIZE : Int) + (FRAME_HEADER_SIZE : Int)) with
  | .error e => .error e
  | .ok p1 =>
    match seekRel p1 (wrapI32 (wrapI32 (ft.frame_size + (FRAME_HEADER_SIZE : Int)) * (-1))) with
    | .error e => .error e
    | .ok p3 => readExact file p3 (i32ToUsize ft.frame_size)

/-- Embeds one iteration of the `for frame in index_frame.frames` loop: a
`Gps` entry seeks to `metadata_pos + frame_offset` (wrapping u64 addition),
reads `frame_size` bytes and decodes them; every other type is skipped. -/
def processEntry (file : List Byte) (mp : Nat) (e : IndexFrameTrailer) :
    Except PErr (List GpsRecord) :=
  match e.frame_type with
  | .Gps =>
    match readExact file ((mp + e.frame_offset) % 2 ^ 64) e.frame_size with
    | .error e => .error e
    | .ok buf => parse_gps_frame buf
  | _ => .ok []

/-- Embeds the entry loop of `main`, emitting the records of the `Gps` frames in index
order; the first failing entry aborts the run. -/
def processEntries (file : List Byte) (mp : Nat) :
    List IndexFrameTrailer → Except PErr (List GpsRecord)
  | [] => .ok []
  | e :: rest =>
    match processEntry file mp e with
    | .error err => .error err
    | .ok rs =>
      match processEntries file mp rest with
      | .error err => .error err
      | .ok more => .ok (rs ++ more)

/-- The whole of `main` (modulo CSV output): parse the trailer, compute the
metadata anchor, read and check the index footer
(`assert_eq!(frame_type, Index)`), read and decode the index payload, then
walk the entries. -/
def resolveRun (file : List Byte) : Except PErr (List GpsRecord) :=
  match readTrailer file with
  | .error e => .error e
  | .ok t =>
    match readFooter file with
    | .error e => .error e
    | .ok ft =>
      if ft.frame_type = FrameType.Index then
        match readIndexPayload file ft with
        | .error e => .error e
        | .ok payload =>
          match parse_index_frame payload with
          | .error e => .error e
          | .ok entries => processEntries file (metadataPos file t) entries
      else .error .notIndex


/-! ### Decidable equality on parse results (for concrete evaluations) -/

instance {ε α : Type} [DecidableEq ε] [DecidableEq α] : DecidableEq (Except ε α) := fun a b =>
  match a, b with
  | .ok x, .ok y =>
    if h : x = y then .isTrue (by rw [h]) else .isFalse (by intro hc; cases hc; exact h rfl)
  | .error x, .error y =>
    if h : x = y then .isTrue (by rw [h]) else .isFalse (by intro hc; cases hc; exact h rfl)
  | .ok _, .error _ => .isFalse (by intro hc; cases hc)
  | .error _, .ok _ => .isFalse (by intro hc; cases hc)

instance (x : Nat) : Decidable (f64gtZero x) := by
  unfold f64gtZero
  infer_instance

/-! ### Concrete inputs used by counterexamples and witnesses -/

/-- An 84-byte file: 6 bytes whose footer-reading would give type `Gps`,
followed by a 78-byte trailer region whose first 6 bytes form an `Index`
footer with `frame_size = 0` and whose last 32 bytes are the signature. -/
def c1File : List Byte :=
  [0, 7, 0, 0, 0, 0] ++
    ([1, 0, 0, 0, 0, 0] ++ (List.replicate 36 0 ++ (List.replicate 4 0 ++ SIGNATURE)))

/-- The trailer that `header_parser` extracts from the last 78 bytes of
`c1File`. -/
def c1Trailer : Trailer :=
  ⟨0, SIGNATURE, [⟨1, 0⟩, ⟨0, 0⟩, ⟨0, 0⟩, ⟨0, 0⟩, ⟨0, 0⟩, ⟨0, 0⟩, ⟨0, 0⟩], 0⟩

/-- An 88-byte file whose index holds a single `Gps` entry with
`frame_size = 100` and `frame_offset = 0`, while the 7th descriptor makes
`metadata_size = 88`, so the metadata anchor is 0 and the entry range
`0 + 0 + 100` exceeds the file length. -/
def c2File : List Byte :=
  [7, 0, 100, 0, 0, 0, 0, 0, 0, 0] ++
    ([0, 0, 10, 0, 0, 0] ++
      (List.replicate 30 0 ++ ([0, 0, 88, 0, 0, 0] ++ (List.replicate 4 0 ++ SIGNATURE))))

/-- A 78-byte file whose final signature byte is corrupted
(`0x67` instead of `0x66`). -/
def c7File : List Byte :=
  List.replicate 46 0 ++ (SIGNATURE.take 31 ++ [0x67])

/-- One well-formed 53-byte GPS record: all fields zero, hemispheres `N`
and `E`. -/
def gps53sample : List Byte :=
  List.replicate 19 0 ++ (78 :: (List.replicate 8 0 ++ (69 :: List.replicate 24 0)))

/-- One 53-byte GPS record whose stored latitude field holds the bit
pattern of `-1.0` (`0xBFF0000000000000`) with hemisphere byte `N`. -/
def gpsNegLatSample : List Byte :=
  List.replicate 11 0 ++
    ([0, 0, 0, 0, 0, 0, 0xF0, 0xBF] ++ (78 :: (List.replicate 8 0 ++ (69 :: List.replicate 24 0))))

/-- One 53-byte GPS record whose stored latitude field holds the bit
pattern of `1.0` (`0x3FF0000000000000`) with hemisphere byte `S`. -/
def gpsSouthSample : List Byte :=
  List.replicate 11 0 ++
    ([0, 0, 0, 0, 0, 0, 0xF0, 0x3F] ++ (83 :: (List.replicate 8 0 ++ (69 :: List.replicate 24 0))))

/-- A 78-byte trailer buffer: 46 zero bytes then the signature. -/
def bufW : List Byte := List.replicate 46 0 ++ SIGNATURE


/-! ### Combinator lemmas -/

theorem pTake_exact {a : List Byte} {n : Nat} (h : a.length = n) (b : List Byte) :
    pTake n (a ++ b) = .ok (b, a) := by
  subst h
  simp [pTake, List.take_left, List.drop_left]

theorem pLeNat_exact {a : List Byte} {n : Nat} (h : a.length = n) (b : List Byte) :
    pLeNat n (a ++ b) = .ok (b, leNat a) := by
  simp [pLeNat, pTake_exact h, Except.map]

theorem pOneOf_mem {c : Byte} {s : List Byte} (h : c ∈ s) (rest : List Byte) :
    pOneOf s (c :: rest) = .ok (rest, c) := by
  simp [pOneOf, h]

theorem pTake_ok_len {n : Nat} {input rest a : List Byte}
    (h : pTake n input = .ok (rest, a)) :
    n ≤ input.length ∧ rest = input.drop n ∧ a = input.take n := by
  unfold pTake at h
  split at h
  · simp only [Except.ok.injEq, Prod.mk.injEq] at h
    exact ⟨by assumption, h.1.symm, h.2.symm⟩
  · cases h

theorem pLeNat_ok_len {n : Nat} {input rest : List Byte} {v : Nat}
    (h : pLeNat n input = .ok (rest, v)) :
    n ≤ input.length ∧ rest = input.drop n ∧ v = leNat (input.take n) := by
  unfold pLeNat at h
  cases h1 : pTake n input with
  | error e => rw [h1] at h; cases h
  | ok p =>
    rw [h1] at h
    simp only [Except.map, Except.ok.injEq, Prod.mk.injEq] at h
    obtain ⟨hn, hr, ha⟩ := pTake_ok_len h1
    exact ⟨hn, by rw [← h.1, hr], by rw [← h.2, ha]⟩

theorem pOneOf_ok {s input rest : List Byte} {b : Byte}
    (h : pOneOf s input = .ok (rest, b)) :
    b ∈ s ∧ input = b :: rest := by
  cases input with
  | nil => cases h
  | cons c t =>
    simp only [pOneOf] at h
    by_cases hc : c ∈ s
    · rw [if_pos hc] at h
      simp only [Except.ok.injEq, Prod.mk.injEq] at h
      obtain ⟨h1, h2⟩ := h
      subst h1; subst h2
      exact ⟨hc, rfl⟩
    · rw [if_neg hc] at h; cases h

/-! ### GPS record lemmas -/

theorem parse_gps_record_append {ts pad lat lon sp tr al : List Byte} {ns ew : Byte}
    (hts : ts.length = 8) (hpad : pad.length = 3) (hlat : lat.length = 8)
    (hns : ns ∈ NS) (hlon : lon.length = 8) (hew : ew ∈ EW)
    (hsp : sp.length = 8) (htr : tr.length = 8) (hal : al.length = 8) (rest : List Byte) :
    parse_gps_record (ts ++ (pad ++ (lat ++ (ns :: (lon ++ (ew :: (sp ++ (tr ++ (al ++ rest)))))))))
      = .ok (rest, ⟨leNat ts,
          if ns = 83 then f64neg (leNat lat) else leNat lat,
          if ew = 87 then f64neg (leNat lon) else leNat lon,
          leNat sp, leNat tr, leNat al⟩) := by
  simp only [parse_gps_record, pLeNat_exact hts, pTake_exact hpad, pLeNat_exact hlat,
    pOneOf_mem hns, pLeNat_exact hlon, pOneOf_mem hew, pLeNat_exact hsp,
    pLeNat_exact htr, pLeNat_exact hal]

theorem parse_gps_record_consumes {input rest : List Byte} {r : GpsRecord}
    (h : parse_gps_record input = .ok (rest, r)) :
    input.length = rest.length + 53 := by
  unfold parse_gps_record at h
  split at h <;> try (cases h ; done)
  rename_i r1 ts h1
  split at h <;> try (cases h ; done)
  rename_i r2 pad h2
  split at h <;> try (cases h ; done)
  rename_i r3 lat h3
  split at h <;> try (cases h ; done)
  rename_i r4 ns h4
  split at h <;> try (cases h ; done)
  rename_i r5 lon h5
  split at h <;> try (cases h ; done)
  rename_i r6 ew h6
  split at h <;> try (cases h ; done)
  rename_i r7 sp h7
  split at h <;> try (cases h ; done)
  rename_i r8 tr h8
  split at h <;> try (cases h ; done)
  rename_i r9 al h9
  simp only [Except.ok.injEq, Prod.mk.injEq] at h
  obtain ⟨hrest, -⟩ := h
  obtain ⟨n1, e1, -⟩ := pLeNat_ok_len h1
  obtain ⟨n2, e2, -⟩ := pTake_ok_len h2
  obtain ⟨n3, e3, -⟩ := pLeNat_ok_len h3
  obtain ⟨-, e4⟩ := pOneOf_ok h4
  obtain ⟨n5, e5, -⟩ := pLeNat_ok_len h5
  obtain ⟨-, e6⟩ := pOneOf_ok h6
  obtain ⟨n7, e7, -⟩ := pLeNat_ok_len h7
  obtain ⟨n8, e8, -⟩ := pLeNat_ok_len h8
  obtain ⟨n9, e9, -⟩ := pLeNat_ok_len h9
  subst hrest
  have l1 : r1.length = input.length - 8 := by rw [e1]; simp
  have l2 : r2.length = r1.length - 3 := by rw [e2]; simp
  have l3 : r3.length = r2.length - 8 := by rw [e3]; simp
  have l4 : r3.length = r4.length + 1 := by rw [e4]; simp
  have l5 : r5.length = r4.length - 8 := by rw [e5]; simp
  have l6 : r5.length = r6.length + 1 := by rw [e6]; simp
  have l7 : r7.length = r6.length - 8 := by rw [e7]; simp
  have l8 : r8.length = r7.length - 8 := by rw [e8]; simp
  have l9 : r9.length = r8.length - 8 := by rw [e9]; simp
  omega

theorem wfGpsChunk_length {r : List Byte} (h : wfGpsChunk r) : r.length = 53 := by
  obtain ⟨ts, pad, lat, lon, sp, tr, al, ns, ew, h1, h2, h3, h4, h5, h6, h7, -, -, hr⟩ := h
  subst hr
  simp [h1, h2, h3, h4, h5, h6, h7]

theorem wfGpsChunk_step {r : List Byte} (h : wfGpsChunk r) (rest : List Byte) :
    ∃ rec : GpsRecord, parse_gps_record (r ++ rest) = .ok (rest, rec) ∧
      parse_gps_record r = .ok ([], rec) := by
  obtain ⟨ts, pad, lat, lon, sp, tr, al, ns, ew, h1, h2, h3, h4, h5, h6, h7, hns, hew, hr⟩ := h
  refine ⟨⟨leNat ts,
      if ns = 83 then f64neg (leNat lat) else leNat lat,
      if ew = 87 then f64neg (leNat lon) else leNat lon,
      leNat sp, leNat tr, leNat al⟩, ?_, ?_⟩
  · have : r ++ rest = ts ++ (pad ++ (lat ++ (ns :: (lon ++ (ew :: (sp ++ (tr ++ (al ++ rest)))))))) := by
      subst hr; simp [List.append_assoc]
    rw [this]
    exact parse_gps_record_append h1 h2 h3 hns h4 hew h5 h6 h7 rest
  · have : r = ts ++ (pad ++ (lat ++ (ns :: (lon ++ (ew :: (sp ++ (tr ++ (al ++ [])))))))) := by
      subst hr; simp
    rw [this]
    exact parse_gps_record_append h1 h2 h3 hns h4 hew h5 h6 h7 []

theorem parseGpsLoop_nil (fuel : Nat) : parseGpsLoop fuel [] = .ok [] := by
  cases fuel <;> rfl

theorem parseGpsLoop_flatten (rs : List (List Byte)) (hwf : ∀ r ∈ rs, wfGpsChunk r) :
    ∀ fuel : Nat, rs.flatten.length ≤ fuel →
    ∃ recs : List GpsRecord, parseGpsLoop fuel rs.flatten = .ok recs ∧
      recs.length = rs.length ∧
      ∀ i : Nat, i < rs.length →
        parse_gps_record (rs.getD i []) = .ok ([], recs.getD i ⟨0, 0, 0, 0, 0, 0⟩) := by
  induction rs with
  | nil =>
    intro fuel _
    refine ⟨[], by simp [parseGpsLoop_nil], rfl, ?_⟩
    intro i hi
    simp at hi
  | cons r rs ih =>
    intro fuel hfuel
    have hwfr : wfGpsChunk r := hwf r (by simp)
    have hwfs : ∀ x ∈ rs, wfGpsChunk x := fun x hx => hwf x (by simp [hx])
    obtain ⟨rec, hstep, hself⟩ := wfGpsChunk_step hwfr rs.flatten
    have hr53 : r.length = 53 := wfGpsChunk_length hwfr
    have hflat : (r :: rs).flatten = r ++ rs.flatten := List.flatten_cons
    cases fuel with
    | zero =>
      exfalso
      rw [hflat] at hfuel
      simp [hr53] at hfuel
    | succ f =>
      obtain ⟨b, t, hb⟩ : ∃ b t, r = b :: t := by
        cases r with
        | nil => simp at hr53
        | cons b t => exact ⟨b, t, rfl⟩
      have hlen : rs.flatten.length ≤ f := by
        rw [hflat] at hfuel
        simp only [List.length_append, hr53] at hfuel
        omega
      obtain ⟨recs, hrecs, hrl, hpt⟩ := ih hwfs f hlen
      refine ⟨rec :: recs, ?_, by simp [hrl], ?_⟩
      · rw [hflat, hb]
        have hstep2 := hstep
        rw [hb] at hstep2
        simp only [List.cons_append] at hstep2
        simp only [parseGpsLoop, List.append_eq, hstep2, hrecs, Except.map]
      · intro i hi
        cases i with
        | zero => simpa using hself
        | succ j =>
          have := hpt j (by simpa using hi)
          simpa using this

theorem parse_gps_frame_flatten (rs : List (List Byte)) (hwf : ∀ r ∈ rs, wfGpsChunk r) :
    ∃ recs : List GpsRecord, parse_gps_frame rs.flatten = .ok recs ∧
      recs.length = rs.length ∧
      ∀ i : Nat, i < rs.length →
        parse_gps_record (rs.getD i []) = .ok ([], recs.getD i ⟨0, 0, 0, 0, 0, 0⟩) :=
  parseGpsLoop_flatten rs hwf _ le_rfl

theorem parseGpsLoop_ok_dvd :
    ∀ (fuel : Nat) (input : List Byte) (recs : List GpsRecord),
      parseGpsLoop fuel input = .ok recs → 53 ∣ input.length := by
  intro fuel
  induction fuel with
  | zero =>
    intro input recs h
    cases input with
    | nil => simp
    | cons b t => cases h
  | succ f ih =>
    intro input recs h
    cases input with
    | nil => simp
    | cons b t =>
      cases hp : parse_gps_record (b :: t) with
      | error e =>
        simp only [parseGpsLoop, hp] at h
        cases h
      | ok p =>
        obtain ⟨rest, rec⟩ := p
        simp only [parseGpsLoop, hp] at h
        cases hl : parseGpsLoop f rest with
        | error e =>
          simp only [hl, Except.map] at h
          cases h
        | ok recs2 =>
          have hdvd := ih rest recs2 hl
          have hc := parse_gps_record_consumes hp
          omega

theorem parse_gps_frame_not_multiple {input : List Byte} (h : ¬ 53 ∣ input.length) :
    ∃ e, parse_gps_frame input = .error e := by
  cases hp : parse_gps_frame input with
  | error e => exact ⟨e, rfl⟩
  | ok recs => exact absurd (parseGpsLoop_ok_dvd input.length input recs hp) h

/-! ### Index lemmas -/

theorem pLeNat_of_le {n : Nat} {input : List Byte} (h : n ≤ input.length) :
    pLeNat n input = .ok (input.drop n, leNat (input.take n)) := by
  simp [pLeNat, pTake, h, Except.map]

theorem pTake_of_le {n : Nat} {input : List Byte} (h : n ≤ input.length) :
    pTake n input = .ok (input.drop n, input.take n) := by
  simp [pTake, h]

theorem pTake_one (a : Byte) (l : List Byte) : pTake 1 (a :: l) = .ok (l, [a]) := by
  simp [pTake, Nat.le_add_left]

theorem pLeNat_four (a b c d : Byte) (l : List Byte) :
    pLeNat 4 (a :: b :: c :: d :: l) = .ok (l, leNat [a, b, c, d]) := by
  simp [pLeNat, pTake, Nat.le_add_left, Except.map]

theorem parse_index_cons (ty v s0 s1 s2 s3 o0 o1 o2 o3 : Byte) (rest : List Byte) :
    parse_index (ty :: v :: s0 :: s1 :: s2 :: s3 :: o0 :: o1 :: o2 :: o3 :: rest) =
      .ok (rest, ⟨v, FrameType.fromU8OrRaw ty,
        leNat [s0, s1, s2, s3], leNat [o0, o1, o2, o3]⟩) := by
  simp [parse_index, pTake_one, pLeNat_four]

theorem exists_cons10 {l : List Byte} (h : 10 ≤ l.length) :
    ∃ b0 b1 b2 b3 b4 b5 b6 b7 b8 b9 : Byte, ∃ t : List Byte,
      l = b0 :: b1 :: b2 :: b3 :: b4 :: b5 :: b6 :: b7 :: b8 :: b9 :: t := by
  match l, h with
  | b0 :: b1 :: b2 :: b3 :: b4 :: b5 :: b6 :: b7 :: b8 :: b9 :: t, _ =>
    exact ⟨b0, b1, b2, b3, b4, b5, b6, b7, b8, b9, t, rfl⟩
  | [], h => simp at h
  | [a], h => simp at h
  | [a, b], h => simp at h
  | [a, b, c], h => simp at h
  | [a, b, c, d], h => simp at h
  | [a, b, c, d, e], h => simp at h
  | [a, b, c, d, e, f], h => simp at h
  | [a, b, c, d, e, f, g], h => simp at h
  | [a, b, c, d, e, f, g, h2], h => simp at h
  | [a, b, c, d, e, f, g, h2, i], h => simp at h

theorem parse_index_consumes {input rest : List Byte} {ent : IndexFrameTrailer}
    (h : parse_index input = .ok (rest, ent)) :
    input.length = rest.length + 10 := by
  unfold parse_index at h
  split at h <;> try (cases h ; done)
  rename_i r1 ty h1
  split at h <;> try (cases h ; done)
  rename_i r2 ver h2
  split at h <;> try (cases h ; done)
  rename_i r3 size h3
  split at h <;> try (cases h ; done)
  rename_i r4 off h4
  simp only [Except.ok.injEq, Prod.mk.injEq] at h
  obtain ⟨hrest, -⟩ := h
  obtain ⟨n1, e1, -⟩ := pTake_ok_len h1
  obtain ⟨n2, e2, -⟩ := pTake_ok_len h2
  obtain ⟨n3, e3, -⟩ := pLeNat_ok_len h3
  obtain ⟨n4, e4, -⟩ := pLeNat_ok_len h4
  subst hrest
  have l1 : r1.length = input.length - 1 := by rw [e1]; simp
  have l2 : r2.length = r1.length - 1 := by rw [e2]; simp
  have l3 : r3.length = r2.length - 4 := by rw [e3]; simp
  have l4 : r4.length = r3.length - 4 := by rw [e4]; simp
  omega

theorem parse_index_short {input : List Byte} (h : input.length < 10) :
    parse_index input = .error .eof := by
  match input, h with
  | [], _ => rfl
  | [a], _ => rfl
  | [a, b], _ => rfl
  | [a, b, c], _ => rfl
  | [a, b, c, d], _ => rfl
  | [a, b, c, d, e], _ => rfl
  | [a, b, c, d, e, f], _ => rfl
  | [a, b, c, d, e, f, g], _ => rfl
  | [a, b, c, d, e, f, g, h2], _ => rfl
  | [a, b, c, d, e, f, g, h2, i], _ => rfl
  | a :: b :: c :: d :: e :: f :: g :: h2 :: i :: j :: t, hlen =>
    exact absurd hlen (by simp only [List.length_cons]; omega)

theorem parseIndexLoop_nil (fuel : Nat) : parseIndexLoop fuel [] = .ok [] := by
  cases fuel <;> rfl

theorem parseIndexLoop_flatten (rs : List (List Byte)) (hwf : ∀ r ∈ rs, r.length = 10) :
    ∀ fuel : Nat, rs.flatten.length ≤ fuel →
    ∃ ents : List IndexFrameTrailer, parseIndexLoop fuel rs.flatten = .ok ents ∧
      ents.length = rs.length ∧
      ∀ i : Nat, i < rs.length →
        parse_index (rs.getD i []) = .ok ([], ents.getD i ⟨0, .Raw, 0, 0⟩) := by
  induction rs with
  | nil =>
    intro fuel _
    refine ⟨[], by simp [parseIndexLoop_nil], rfl, ?_⟩
    intro i hi
    simp at hi
  | cons r rs ih =>
    intro fuel hfuel
    have hr10 : r.length = 10 := hwf r (by simp)
    have hwfs : ∀ x ∈ rs, x.length = 10 := fun x hx => hwf x (by simp [hx])
    obtain ⟨b0, b1, b2, b3, b4, b5, b6, b7, b8, b9, t, hb⟩ := exists_cons10 (show 10 ≤ r.length by omega)
    have ht : t = [] := by
      subst hb
      simp only [List.length_cons] at hr10
      exact List.eq_nil_of_length_eq_zero (by omega)
    subst ht
    have hflat : (r :: rs).flatten = r ++ rs.flatten := List.flatten_cons
    have hstep : parse_index (r ++ rs.flatten) =
        .ok (rs.flatten, ⟨b1, FrameType.fromU8OrRaw b0,
          leNat [b2, b3, b4, b5], leNat [b6, b7, b8, b9]⟩) := by
      subst hb
      simp only [List.cons_append, List.nil_append]
      exact parse_index_cons b0 b1 b2 b3 b4 b5 b6 b7 b8 b9 rs.flatten
    have hself : parse_index r =
        .ok ([], ⟨b1, FrameType.fromU8OrRaw b0,
          leNat [b2, b3, b4, b5], leNat [b6, b7, b8, b9]⟩) := by
      subst hb
      exact parse_index_cons b0 b1 b2 b3 b4 b5 b6 b7 b8 b9 []
    cases fuel with
    | zero =>
      exfalso
      rw [hflat] at hfuel
      simp [hr10] at hfuel
    | succ f =>
      have hlen : rs.flatten.length ≤ f := by
        rw [hflat] at hfuel
        simp only [List.length_append, hr10] at hfuel
        omega
      obtain ⟨ents, hents, hel, hpt⟩ := ih hwfs f hlen
      refine ⟨⟨b1, FrameType.fromU8OrRaw b0,
          leNat [b2, b3, b4, b5], leNat [b6, b7, b8, b9]⟩ :: ents, ?_, by simp [hel], ?_⟩
      · rw [hflat]
        have hstep2 := hstep
        rw [hb] at hstep2
        simp only [List.cons_append, List.nil_append] at hstep2
        rw [hb]
        simp only [List.cons_append, List.nil_append]
        simp only [parseIndexLoop, List.append_eq, hstep2, hents, Except.map]
      · intro i hi
        cases i with
        | zero => simpa using hself
        | succ j =>
          have := hpt j (by simpa using hi)
          simpa using this

theorem parse_index_frame_flatten (rs : List (List Byte)) (hwf : ∀ r ∈ rs, r.length = 10) :
    ∃ ents : List IndexFrameTrailer, parse_index_frame rs.flatten = .ok ents ∧
      ents.length = rs.length ∧
      ∀ i : Nat, i < rs.length →
        parse_index (rs.getD i []) = .ok ([], ents.getD i ⟨0, .Raw, 0, 0⟩) :=
  parseIndexLoop_flatten rs hwf _ le_rfl

theorem parseIndexLoop_ok_dvd :
    ∀ (fuel : Nat) (input : List Byte) (ents : List IndexFrameTrailer),
      parseIndexLoop fuel input = .ok ents → 10 ∣ input.length ∧ ents.length = input.length / 10 := by
  intro fuel
  induction fuel with
  | zero =>
    intro input ents h
    cases input with
    | nil => cases h; simp
    | cons b t => cases h
  | succ f ih =>
    intro input ents h
    cases input with
    | nil => cases h; simp
    | cons b t =>
      cases hp : parse_index (b :: t) with
      | error e =>
        simp only [parseIndexLoop, hp] at h
        cases h
      | ok p =>
        obtain ⟨rest, ent⟩ := p
        simp only [parseIndexLoop, hp] at h
        cases hl : parseIndexLoop f rest with
        | error e =>
          simp only [hl, Except.map] at h
          cases h
        | ok ents2 =>
          simp only [hl, Except.map, Except.ok.injEq] at h
          obtain ⟨hdvd, hcnt⟩ := ih rest ents2 hl
          have hc := parse_index_consumes hp
          simp only [List.length_cons] at hc
          subst h
          simp only [List.length_cons]
          constructor
          · omega
          · omega

theorem parseIndexLoop_not_multiple :
    ∀ (fuel : Nat) (input : List Byte), input.length ≤ fuel → ¬ 10 ∣ input.length →
      parseIndexLoop fuel input = .error .eof := by
  intro fuel
  induction fuel with
  | zero =>
    intro input hle hnd
    cases input with
    | nil => exact absurd (by simp) hnd
    | cons b t => simp at hle
  | succ f ih =>
    intro input hle hnd
    cases input with
    | nil => exact absurd (by simp) hnd
    | cons b t =>
      by_cases h10 : 10 ≤ (b :: t).length
      · obtain ⟨b0, b1, b2, b3, b4, b5, b6, b7, b8, b9, u, hb⟩ := exists_cons10 h10
        have hp : parse_index (b :: t) = .ok (u, ⟨b1, FrameType.fromU8OrRaw b0,
            leNat [b2, b3, b4, b5], leNat [b6, b7, b8, b9]⟩) := by
          rw [hb]
          exact parse_index_cons b0 b1 b2 b3 b4 b5 b6 b7 b8 b9 u
        have hcons : (b :: t).length = u.length + 10 := parse_index_consumes hp
        have hrec : parseIndexLoop f u = .error .eof := by
          apply ih
          · omega
          · intro hd
            exact hnd (by omega)
        simp only [parseIndexLoop, hp, hrec, Except.map]
      · have hp : parse_index (b :: t) = .error .eof := parse_index_short (by omega)
        simp only [parseIndexLoop, hp]

theorem parse_index_frame_not_multiple {input : List Byte} (h : ¬ 10 ∣ input.length) :
    parse_index_frame input = .error .eof :=
  parseIndexLoop_not_multiple input.length input le_rfl h

/-! ### Trailer lemmas -/

theorem getLastD_eq_getD {α : Type} (l : List α) (d : α) (h : l ≠ []) :
    l.getLastD d = l.getD (l.length - 1) d := by
  induction l generalizing d with
  | nil => simp at h
  | cons a t ih =>
    cases t with
    | nil => rfl
    | cons b u =>
      rw [List.getLastD_cons]
      rw [ih a (by simp)]
      simp

theorem parse_trailer_metadata_of_le {l : List Byte} (h : 6 ≤ l.length) :
    parse_trailer_metadata l =
      .ok (l.drop 6, ⟨leNat (l.take 2), leNat ((l.drop 2).take 4)⟩) := by
  have e1 := pLeNat_of_le (show 2 ≤ l.length by omega)
  have e2 := pLeNat_of_le (show 4 ≤ (l.drop 2).length by simp; omega)
  simp only [parse_trailer_metadata, e1, e2, List.drop_drop]

theorem parse_trailer_metadata_consumes {l rest : List Byte} {m : TrailerMetadata}
    (h : parse_trailer_metadata l = .ok (rest, m)) :
    l.length = rest.length + 6 := by
  unfold parse_trailer_metadata at h
  split at h <;> try (cases h ; done)
  rename_i r1 i1 h1
  split at h <;> try (cases h ; done)
  rename_i r2 s2 h2
  simp only [Except.ok.injEq, Prod.mk.injEq] at h
  obtain ⟨hrest, -⟩ := h
  obtain ⟨n1, e1, -⟩ := pLeNat_ok_len h1
  obtain ⟨n2, e2, -⟩ := pLeNat_ok_len h2
  subst hrest
  have l1 : r1.length = l.length - 2 := by rw [e1]; simp
  have l2 : r2.length = r1.length - 4 := by rw [e2]; simp
  omega

theorem pCount_ptm (n : Nat) :
    ∀ l : List Byte, 6 * n ≤ l.length →
    ∃ ms : List TrailerMetadata,
      pCount parse_trailer_metadata n l = .ok (l.drop (6 * n), ms) ∧
      ms.length = n ∧
      ∀ i : Nat, i < n →
        ms.getD i ⟨0, 0⟩ = ⟨leNat ((l.drop (6 * i)).take 2), leNat ((l.drop (6 * i + 2)).take 4)⟩ := by
  induction n with
  | zero =>
    intro l _
    refine ⟨[], by simp [pCount], rfl, ?_⟩
    intro i hi
    omega
  | succ m ih =>
    intro l h
    have h6 : 6 ≤ l.length := by omega
    have hptm := parse_trailer_metadata_of_le h6
    obtain ⟨ms, hms, hlen, hpt⟩ := ih (l.drop 6) (by simp; omega)
    refine ⟨⟨leNat (l.take 2), leNat ((l.drop 2).take 4)⟩ :: ms, ?_, by simp [hlen], ?_⟩
    · have hdd : (l.drop 6).drop (6 * m) = l.drop (6 * (m + 1)) := by
        rw [List.drop_drop]
        congr 1
        ring
      simp only [pCount, hptm, hms, hdd]
    · intro i hi
      cases i with
      | zero => simp
      | succ j =>
        have hj := hpt j (by omega)
        have a1 : 6 * (j + 1) = 6 * j + 6 := by ring
        have a2 : 6 * (j + 1) + 2 = 6 * j + 2 + 6 := by ring
        simp only [List.getD_cons_succ, hj, List.drop_drop, a1, a2]
        rw [show (6 + 6 * j : Nat) = 6 * j + 6 from by omega,
            show (6 + (6 * j + 2) : Nat) = 6 * j + 6 + 2 from by omega]

theorem pCount_ptm_consumes (n : Nat) :
    ∀ {l rest : List Byte} {ms : List TrailerMetadata},
      pCount parse_trailer_metadata n l = .ok (rest, ms) → l.length = rest.length + 6 * n := by
  induction n with
  | zero =>
    intro l rest ms h
    simp only [pCount, Except.ok.injEq, Prod.mk.injEq] at h
    obtain ⟨hrest, -⟩ := h
    subst hrest
    omega
  | succ m ih =>
    intro l rest ms h
    cases hp : parse_trailer_metadata l with
    | error e =>
      simp only [pCount, hp] at h
      cases h
    | ok p =>
      obtain ⟨r1, a⟩ := p
      simp only [pCount, hp] at h
      cases hc : pCount parse_trailer_metadata m r1 with
      | error e =>
        simp only [hc] at h
        cases h
      | ok q =>
        obtain ⟨r2, as2⟩ := q
        simp only [hc, Except.ok.injEq, Prod.mk.injEq] at h
        obtain ⟨hrest, -⟩ := h
        subst hrest
        have := parse_trailer_metadata_consumes hp
        have := ih hc
        omega

theorem pLeI32_of_le {l : List Byte} (h : 4 ≤ l.length) :
    pLeI32 l = .ok (l.drop 4, i32ofNat (leNat (l.take 4))) := by
  simp [pLeI32, pLeNat_of_le h, Except.map]

theorem pTag_sig_of_eq {l : List Byte} (h : l.take 32 = SIGNATURE) :
    pTag SIGNATURE l = .ok (l.drop 32, SIGNATURE) := by
  simp [pTag, show SIGNATURE.length = 32 from rfl, h]

theorem pTag_sig_of_ne {l : List Byte} (h : l.take 32 ≠ SIGNATURE) :
    pTag SIGNATURE l = .error .tagMismatch := by
  simp [pTag, show SIGNATURE.length = 32 from rfl, h]

theorem parseHeader_ok {buf : List Byte} (h78 : buf.length = 78)
    (hsig : (buf.drop 46).take 32 = SIGNATURE) :
    ∃ ms : List TrailerMetadata,
      parseHeader buf = .ok ([],
        ⟨i32ofNat (leNat ((buf.drop 42).take 4)), SIGNATURE, ms,
          leNat ((buf.drop 38).take 4)⟩) ∧
      ms.length = 7 ∧
      ∀ i : Nat, i < 7 →
        ms.getD i ⟨0, 0⟩ =
          ⟨leNat ((buf.drop (6 * i)).take 2), leNat ((buf.drop (6 * i + 2)).take 4)⟩ := by
  obtain ⟨ms, hms, hlen7, hpt⟩ := pCount_ptm 7 buf (by omega)
  have hms42 : pCount parse_trailer_metadata 7 buf = .ok (buf.drop 42, ms) := by
    rw [hms]
  have e2 : pLeI32 (buf.drop 42) = .ok (buf.drop 46, i32ofNat (leNat ((buf.drop 42).take 4))) := by
    rw [pLeI32_of_le (by simp [h78])]
    rw [List.drop_drop]
  have e3 : pTag SIGNATURE (buf.drop 46) = .ok ([], SIGNATURE) := by
    rw [pTag_sig_of_eq hsig]
    have hd : (buf.drop 46).drop 32 = [] := by
      rw [List.drop_drop]
      have h32 : (32 + 46 : Nat) = buf.length := by omega
      rw [h32, List.drop_length]
    rw [hd]
  have hne : ms ≠ [] := by
    intro hnil
    rw [hnil] at hlen7
    cases hlen7
  have hlast : ms.getLastD ⟨0, 0⟩ =
      ⟨leNat ((buf.drop 36).take 2), leNat ((buf.drop 38).take 4)⟩ := by
    rw [getLastD_eq_getD ms _ hne, hlen7]
    have := hpt 6 (by omega)
    norm_num at this ⊢
    exact this
  refine ⟨ms, ?_, hlen7, hpt⟩
  simp only [parseHeader, hms42, e2, e3, hlast]

theorem parseHeader_err {buf : List Byte} (h78 : 78 ≤ buf.length)
    (hsig : (buf.drop 46).take 32 ≠ SIGNATURE) :
    parseHeader buf = .error .tagMismatch := by
  obtain ⟨ms, hms, -, -⟩ := pCount_ptm 7 buf (by omega)
  have hms42 : pCount parse_trailer_metadata 7 buf = .ok (buf.drop 42, ms) := by
    rw [hms]
  have e2 : pLeI32 (buf.drop 42) = .ok (buf.drop 46, i32ofNat (leNat ((buf.drop 42).take 4))) := by
    rw [pLeI32_of_le (by simp; omega)]
    rw [List.drop_drop]
  have e3 : pTag SIGNATURE (buf.drop 46) = .error .tagMismatch := pTag_sig_of_ne hsig
  simp only [parseHeader, hms42, e2, e3]

theorem parseHeader_ok_length {buf r : List Byte} {t : Trailer}
    (h : parseHeader buf = .ok (r, t)) : 78 ≤ buf.length := by
  unfold parseHeader at h
  split at h <;> try (cases h ; done)
  rename_i r1 ms h1
  split at h <;> try (cases h ; done)
  rename_i r2 ver h2
  split at h <;> try (cases h ; done)
  rename_i r3 sg h3
  have c1 := pCount_ptm_consumes 7 h1
  unfold pLeI32 at h2
  cases h2x : pLeNat 4 r1 with
  | error e => rw [h2x] at h2; cases h2
  | ok p =>
    rw [h2x] at h2
    obtain ⟨hn2, e2a, -⟩ := pLeNat_ok_len h2x
    unfold pTag at h3
    split at h3
    · rename_i htag
      have h32 : (r2.take SIGNATURE.length).length = SIGNATURE.length := by rw [htag]
      rw [List.length_take] at h32
      have : 32 ≤ r2.length := by
        rw [show SIGNATURE.length = 32 from rfl] at h32
        omega
      have l2 : r2.length = r1.length - 4 := by
        simp only [Except.map, Except.ok.injEq, Prod.mk.injEq] at h2
        rw [← h2.1, e2a]
        simp
      omega
    · cases h3

/-! ### f64 sign lemmas -/

theorem f64ltZero_f64neg {x : Nat} (h : f64gtZero x) : f64ltZero (f64neg x) := by
  obtain ⟨h1, h2, h3⟩ := h
  unfold f64neg f64ltZero
  rw [if_pos h1]
  refine ⟨by omega, ?_, ?_⟩ <;> omega

theorem not_f64ltZero_of_gt {x : Nat} (h : f64gtZero x) : ¬ f64ltZero x := by
  obtain ⟨h1, -, -⟩ := h
  intro hc
  obtain ⟨c1, -, -⟩ := hc
  omega

/-! ### GPS field inversion -/

theorem pOneOf_not_mem {c : Byte} {s : List Byte} (h : c ∉ s) (rest : List Byte) :
    pOneOf s (c :: rest) = .error .oneOfNoMatch := by
  simp [pOneOf, h]

theorem getD_eq_of_drop_cons {l t : List Byte} {n : Nat} {a : Byte}
    (h : l.drop n = a :: t) : l.getD n 0 = a := by
  have hlen : n < l.length := by
    by_contra hc
    rw [List.drop_eq_nil_of_le (by omega)] at h
    cases h
  rw [List.getD_eq_getElem?_getD]
  have := List.drop_eq_getElem_cons hlen
  rw [this] at h
  have : l[n] = a := (List.cons.injEq _ _ _ _ ▸ h).1
  rw [List.getElem?_eq_getElem hlen, this]
  rfl

theorem parse_gps_record_fields {input rest : List Byte} {r : GpsRecord}
    (h : parse_gps_record input = .ok (rest, r)) :
    input.getD 19 0 ∈ NS ∧ input.getD 28 0 ∈ EW ∧
    r.latitude = (if input.getD 19 0 = 83 then f64neg (leNat ((input.drop 11).take 8))
                  else leNat ((input.drop 11).take 8)) ∧
    r.longitude = (if input.getD 28 0 = 87 then f64neg (leNat ((input.drop 20).take 8))
                   else leNat ((input.drop 20).take 8)) := by
  unfold parse_gps_record at h
  split at h <;> try (cases h ; done)
  rename_i r1 ts h1
  split at h <;> try (cases h ; done)
  rename_i r2 pad h2
  split at h <;> try (cases h ; done)
  rename_i r3 lat h3
  split at h <;> try (cases h ; done)
  rename_i r4 ns h4
  split at h <;> try (cases h ; done)
  rename_i r5 lon h5
  split at h <;> try (cases h ; done)
  rename_i r6 ew h6
  split at h <;> try (cases h ; done)
  rename_i r7 sp h7
  split at h <;> try (cases h ; done)
  rename_i r8 tr h8
  split at h <;> try (cases h ; done)
  rename_i r9 al h9
  simp only [Except.ok.injEq, Prod.mk.injEq] at h
  obtain ⟨-, hr⟩ := h
  obtain ⟨-, e1, -⟩ := pLeNat_ok_len h1
  obtain ⟨-, e2, -⟩ := pTake_ok_len h2
  obtain ⟨-, e3, hlat⟩ := pLeNat_ok_len h3
  obtain ⟨hnsm, e4⟩ := pOneOf_ok h4
  obtain ⟨-, e5, hlon⟩ := pLeNat_ok_len h5
  obtain ⟨hewm, e6⟩ := pOneOf_ok h6
  have hr2 : r2 = input.drop 11 := by
    rw [e2, e1, List.drop_drop]
  have hr3 : r3 = input.drop 19 := by
    rw [e3, hr2, List.drop_drop]
  have hns : input.getD 19 0 = ns := getD_eq_of_drop_cons (by rw [← hr3, e4])
  have hr4 : r4 = input.drop 20 := by
    have := congrArg List.tail e4
    simp only [List.tail_cons] at this
    rw [← this, hr3, List.tail_drop]
  have hr5 : r5 = input.drop 28 := by
    rw [e5, hr4, List.drop_drop]
  have hew : input.getD 28 0 = ew := getD_eq_of_drop_cons (by rw [← hr5, e6])
  have hlat2 : lat = leNat ((input.drop 11).take 8) := by rw [hlat, hr2]
  have hlon2 : lon = leNat ((input.drop 20).take 8) := by rw [hlon, hr4]
  subst hr
  refine ⟨by rw [hns]; exact hnsm, by rw [hew]; exact hewm, ?_, ?_⟩
  · simp only [hns, hlat2]
  · simp only [hew, hlon2]

theorem parse_gps_record_bad_ns {input : List Byte} (hlen : 20 ≤ input.length)
    (hns : input.getD 19 0 ∉ NS) :
    parse_gps_record input = .error .oneOfNoMatch := by
  have e1 := pLeNat_of_le (show 8 ≤ input.length by omega)
  have e2 := pTake_of_le (show 3 ≤ (input.drop 8).length by simp; omega)
  have e3 := pLeNat_of_le (show 8 ≤ ((input.drop 8).drop 3).length by simp; omega)
  have hd : ((input.drop 8).drop 3).drop 8 = input.drop 19 := by
    rw [List.drop_drop, List.drop_drop]
  have hcons : input.drop 19 = input.getD 19 0 :: input.drop 20 := by
    have h19 : 19 < input.length := by omega
    rw [List.drop_eq_getElem_cons h19]
    rw [List.getD_eq_getElem?_getD, List.getElem?_eq_getElem h19]
    rfl
  have e4 : pOneOf NS (((input.drop 8).drop 3).drop 8) = .error .oneOfNoMatch := by
    rw [hd, hcons]
    exact pOneOf_not_mem hns _
  simp only [parse_gps_record, e1, e2, e3, e4]

theorem parse_gps_record_bad_ew {input : List Byte} (hlen : 29 ≤ input.length)
    (hns : input.getD 19 0 ∈ NS) (hew : input.getD 28 0 ∉ EW) :
    parse_gps_record input = .error .oneOfNoMatch := by
  have e1 := pLeNat_of_le (show 8 ≤ input.length by omega)
  have e2 := pTake_of_le (show 3 ≤ (input.drop 8).length by simp; omega)
  have e3 := pLeNat_of_le (show 8 ≤ ((input.drop 8).drop 3).length by simp; omega)
  have hd : ((input.drop 8).drop 3).drop 8 = input.drop 19 := by
    rw [List.drop_drop, List.drop_drop]
  have hcons : input.drop 19 = input.getD 19 0 :: input.drop 20 := by
    have h19 : 19 < input.length := by omega
    rw [List.drop_eq_getElem_cons h19]
    rw [List.getD_eq_getElem?_getD, List.getElem?_eq_getElem h19]
    rfl
  have e4 : pOneOf NS (((input.drop 8).drop 3).drop 8) = .ok (input.drop 20, input.getD 19 0) := by
    rw [hd, hcons]
    exact pOneOf_mem hns _
  have e5 := pLeNat_of_le (show 8 ≤ (input.drop 20).length by simp; omega)
  have hd2 : (input.drop 20).drop 8 = input.drop 28 := by
    rw [List.drop_drop]
  have hcons2 : input.drop 28 = input.getD 28 0 :: input.drop 29 := by
    have h28 : 28 < input.length := by omega
    rw [List.drop_eq_getElem_cons h28]
    rw [List.getD_eq_getElem?_getD, List.getElem?_eq_getElem h28]
    rfl
  have e6 : pOneOf EW ((input.drop 20).drop 8) = .error .oneOfNoMatch := by
    rw [hd2, hcons2]
    exact pOneOf_not_mem hew _
  simp only [parse_gps_record, e1, e2, e3, e4, e5, e6]

/-! ### insgps.rs variant lemmas -/

theorem parse_gps_record_v2_consumes {input rest : List Byte} {r : GpsRecord}
    (h : parse_gps_record_v2 input = .ok (rest, r)) :
    input.length = rest.length + 53 := by
  unfold parse_gps_record_v2 at h
  split at h <;> try (cases h ; done)
  rename_i r1 ts h1
  split at h <;> try (cases h ; done)
  rename_i r2 pad h2
  split at h <;> try (cases h ; done)
  rename_i r3 lat h3
  split at h <;> try (cases h ; done)
  rename_i r4 ns h4
  split at h <;> try (cases h ; done)
  rename_i r5 lon h5
  split at h <;> try (cases h ; done)
  rename_i r6 ew h6
  split at h <;> try (cases h ; done)
  rename_i r7 sp h7
  split at h <;> try (cases h ; done)
  rename_i r8 tr h8
  split at h <;> try (cases h ; done)
  rename_i r9 al h9
  simp only [Except.ok.injEq, Prod.mk.injEq] at h
  obtain ⟨hrest, -⟩ := h
  obtain ⟨n1, e1, -⟩ := pLeNat_ok_len h1
  obtain ⟨n2, e2, -⟩ := pTake_ok_len h2
  obtain ⟨n3, e3, -⟩ := pLeNat_ok_len h3
  obtain ⟨-, e4⟩ := pOneOf_ok h4
  obtain ⟨n5, e5, -⟩ := pLeNat_ok_len h5
  obtain ⟨-, e6⟩ := pOneOf_ok h6
  obtain ⟨n7, e7, -⟩ := pLeNat_ok_len h7
  obtain ⟨n8, e8, -⟩ := pLeNat_ok_len h8
  obtain ⟨n9, e9, -⟩ := pLeNat_ok_len h9
  subst hrest
  have l1 : r1.length = input.length - 4 := by rw [e1]; simp
  have l2 : r2.length = r1.length - 7 := by rw [e2]; simp
  have l3 : r3.length = r2.length - 8 := by rw [e3]; simp
  have l4 : r3.length = r4.length + 1 := by rw [e4]; simp
  have l5 : r5.length = r4.length - 8 := by rw [e5]; simp
  have l6 : r5.length = r6.length + 1 := by rw [e6]; simp
  have l7 : r7.length = r6.length - 8 := by rw [e7]; simp
  have l8 : r8.length = r7.length - 8 := by rw [e8]; simp
  have l9 : r9.length = r8.length - 8 := by rw [e9]; simp
  omega

theorem parse_gps_record_v2_fields {input rest : List Byte} {r : GpsRecord}
    (h : parse_gps_record_v2 input = .ok (rest, r)) :
    input.getD 19 0 ∈ NS ∧ input.getD 28 0 ∈ EW ∧
    r.latitude = (if input.getD 19 0 = 83 then f64neg (leNat ((input.drop 11).take 8))
                  else leNat ((input.drop 11).take 8)) ∧
    r.longitude = (if input.getD 28 0 = 87 then f64neg (leNat ((input.drop 20).take 8))
                   else leNat ((input.drop 20).take 8)) := by
  unfold parse_gps_record_v2 at h
  split at h <;> try (cases h ; done)
  rename_i r1 ts h1
  split at h <;> try (cases h ; done)
  rename_i r2 pad h2
  split at h <;> try (cases h ; done)
  rename_i r3 lat h3
  split at h <;> try (cases h ; done)
  rename_i r4 ns h4
  split at h <;> try (cases h ; done)
  rename_i r5 lon h5
  split at h <;> try (cases h ; done)
  rename_i r6 ew h6
  split at h <;> try (cases h ; done)
  rename_i r7 sp h7
  split at h <;> try (cases h ; done)
  rename_i r8 tr h8
  split at h <;> try (cases h ; done)
  rename_i r9 al h9
  simp only [Except.ok.injEq, Prod.mk.injEq] at h
  obtain ⟨-, hr⟩ := h
  obtain ⟨-, e1, -⟩ := pLeNat_ok_len h1
  obtain ⟨-, e2, -⟩ := pTake_ok_len h2
  obtain ⟨-, e3, hlat⟩ := pLeNat_ok_len h3
  obtain ⟨hnsm, e4⟩ := pOneOf_ok h4
  obtain ⟨-, e5, hlon⟩ := pLeNat_ok_len h5
  obtain ⟨hewm, e6⟩ := pOneOf_ok h6
  have hr2 : r2 = input.drop 11 := by
    rw [e2, e1, List.drop_drop]
  have hr3 : r3 = input.drop 19 := by
    rw [e3, hr2, List.drop_drop]
  have hns : input.getD 19 0 = ns := getD_eq_of_drop_cons (by rw [← hr3, e4])
  have hr4 : r4 = input.drop 20 := by
    have := congrArg List.tail e4
    simp only [List.tail_cons] at this
    rw [← this, hr3, List.tail_drop]
  have hr5 : r5 = input.drop 28 := by
    rw [e5, hr4, List.drop_drop]
  have hew : input.getD 28 0 = ew := getD_eq_of_drop_cons (by rw [← hr5, e6])
  have hlat2 : lat = leNat ((input.drop 11).take 8) := by rw [hlat, hr2]
  have hlon2 : lon = leNat ((input.drop 20).take 8) := by rw [hlon, hr4]
  subst hr
  refine ⟨by rw [hns]; exact hnsm, by rw [hew]; exact hewm, ?_, ?_⟩
  · simp only [hns, hlat2]
  · simp only [hew, hlon2]

/-! ### Pipeline lemmas -/

theorem seekEnd_ok {l : List Byte} {k : Nat} (h : k ≤ l.length) :
    seekEnd l (-(k : Int)) = .ok (l.length - k) := by
  unfold seekEnd
  rw [if_neg (by omega)]
  congr 1
  omega

theorem seekRel_ok {p k : Nat} (h : k ≤ p) :
    seekRel p (-(k : Int)) = .ok (p - k) := by
  unfold seekRel
  rw [if_neg (by omega)]
  congr 1
  omega

theorem readExact_ok {l : List Byte} {pos n : Nat} (h : pos + n ≤ l.length) :
    readExact l pos n = .ok ((l.drop pos).take n) := by
  simp [readExact, h]

theorem readExact_err {l : List Byte} {pos n : Nat} (h : l.length < pos + n) :
    readExact l pos n = .error .ioEof := by
  simp [readExact]
  omega

theorem readTrailer_eq {file : List Byte} (h : 78 ≤ file.length) :
    readTrailer file =
      match parseHeader ((file.drop (file.length - 78)).take 78) with
      | .error e => .error e
      | .ok (_, t) => .ok t := by
  have e1 : seekEnd file (-((78 : Nat) : Int)) = .ok (file.length - 78) := seekEnd_ok h
  have e2 : readExact file (file.length - 78) 78
      = .ok ((file.drop (file.length - 78)).take 78) := readExact_ok (by omega)
  simp only [readTrailer, HEADER_SIZE, e1, e2]

theorem readFooter_eq {file : List Byte} (h : 78 ≤ file.length) :
    readFooter file =
      match frame_trailer ((file.drop (file.length - 78)).take 6) with
      | .error e => .error e
      | .ok (_, ft) => .ok ft := by
  have e0 : (-((78 : Nat) : Int) + ((6 : Nat) : Int)) = -((72 : Nat) : Int) := by decide
  have e1 : seekEnd file (-((72 : Nat) : Int)) = .ok (file.length - 72) := seekEnd_ok (by omega)
  have e2 : seekRel (file.length - 72) (-((6 : Nat) : Int)) = .ok (file.length - 78) := by
    rw [seekRel_ok (by omega)]
    rw [show file.length - 72 - 6 = file.length - 78 from by omega]
  have e3 : readExact file (file.length - 78) 6
      = .ok ((file.drop (file.length - 78)).take 6) := readExact_ok (by omega)
  simp only [readFooter, HEADER_SIZE, FRAME_HEADER_SIZE, e0, e1, e2, e3]

theorem readIndexPayload_eq {file : List Byte} {ft : FrameTrailer} {n : Nat}
    (hn : ft.frame_size = (n : Int)) (hn31 : n + 6 < 2 ^ 31) (hlen : n + 78 ≤ file.length) :
    readIndexPayload file ft = .ok ((file.drop (file.length - 78 - n)).take n) := by
  have e0 : (-((78 : Nat) : Int) + ((6 : Nat) : Int)) = -((72 : Nat) : Int) := by decide
  have e1 : seekEnd file (-((72 : Nat) : Int)) = .ok (file.length - 72) := seekEnd_ok (by omega)
  have hcast : ((n : Int) + 6) < 2 ^ 31 := by exact_mod_cast hn31
  have ea : wrapI32 (wrapI32 (ft.frame_size + ((6 : Nat) : Int)) * (-1)) =
      -(((n + 6 : Nat)) : Int) := by
    rw [hn]
    unfold wrapI32
    push_cast
    omega
  have e2 : seekRel (file.length - 72) (-(((n + 6 : Nat)) : Int)) = .ok (file.length - 78 - n) := by
    rw [seekRel_ok (by omega)]
    rw [show file.length - 72 - (n + 6) = file.length - 78 - n from by omega]
  have eb : i32ToUsize ft.frame_size = n := by
    rw [hn]
    unfold i32ToUsize
    omega
  have e3 : readExact file (file.length - 78 - n) n
      = .ok ((file.drop (file.length - 78 - n)).take n) := readExact_ok (by omega)
  simp only [readIndexPayload, HEADER_SIZE, FRAME_HEADER_SIZE, e0, e1, ea, e2, eb, e3]

theorem resolveRun_err_trailer {file : List Byte} {e : PErr}
    (h : readTrailer file = .error e) : resolveRun file = .error e := by
  simp only [resolveRun, h]

theorem resolveRun_notIndex {file : List Byte} {t : Trailer} {ft : FrameTrailer}
    (ht : readTrailer file = .ok t) (hf : readFooter file = .ok ft)
    (hty : ft.frame_type ≠ FrameType.Index) : resolveRun file = .error .notIndex := by
  simp only [resolveRun, ht, hf, if_neg hty]

theorem resolveRun_steps {file : List Byte} {t : Trailer} {ft : FrameTrailer}
    {payload : List Byte} {entries : List IndexFrameTrailer}
    (ht : readTrailer file = .ok t) (hf : readFooter file = .ok ft)
    (hty : ft.frame_type = FrameType.Index)
    (hp : readIndexPayload file ft = .ok payload)
    (he : parse_index_frame payload = .ok entries) :
    resolveRun file = processEntries file (metadataPos file t) entries := by
  simp only [resolveRun, ht, hf, if_pos hty, hp, he]

theorem processEntry_skip {file : List Byte} {mp : Nat} {e : IndexFrameTrailer}
    (h : e.frame_type ≠ FrameType.Gps) : processEntry file mp e = .ok [] := by
  obtain ⟨v, ty, sz, off⟩ := e
  cases ty <;> first | rfl | (exact absurd rfl h)

theorem processEntry_gps_oob {file : List Byte} {mp : Nat} {e : IndexFrameTrailer}
    (hty : e.frame_type = FrameType.Gps)
    (hoob : file.length < (mp + e.frame_offset) % 2 ^ 64 + e.frame_size) :
    processEntry file mp e = .error .ioEof := by
  obtain ⟨v, ty, sz, off⟩ := e
  simp only at hty
  subst hty
  simp only [processEntry, readExact_err hoob]

theorem processEntry_gps_read {file : List Byte} {mp : Nat} {e : IndexFrameTrailer}
    {buf : List Byte} (hty : e.frame_type = FrameType.Gps)
    (hread : readExact file ((mp + e.frame_offset) % 2 ^ 64) e.frame_size = .ok buf) :
    processEntry file mp e = parse_gps_frame buf := by
  obtain ⟨v, ty, sz, off⟩ := e
  simp only at hty
  subst hty
  simp only [processEntry, hread]

theorem processEntries_cons_skip {file : List Byte} {mp : Nat} {e : IndexFrameTrailer}
    {rest : List IndexFrameTrailer} (h : e.frame_type ≠ FrameType.Gps) :
    processEntries file mp (e :: rest) = processEntries file mp rest := by
  cases hrec : processEntries file mp rest with
  | error err => simp only [processEntries, processEntry_skip h, hrec]
  | ok more => simp only [processEntries, processEntry_skip h, hrec, List.nil_append]

theorem processEntries_cons_err {file : List Byte} {mp : Nat} {e : IndexFrameTrailer}
    {rest : List IndexFrameTrailer} {err : PErr}
    (h : processEntry file mp e = .error err) :
    processEntries file mp (e :: rest) = .error err := by
  simp only [processEntries, h]

theorem fromU8OrRaw_unknown {b : Nat} (h : 25 ≤ b) : FrameType.fromU8OrRaw b = .Raw := by
  simp [FrameType.fromU8OrRaw, FrameType.fromU8,
    show b ≠ 0 by omega,
    show b ≠ 1 by omega,
    show b ≠ 2 by omega,
    show b ≠ 3 by omega,
    show b ≠ 4 by omega,
    show b ≠ 5 by omega,
    show b ≠ 6 by omega,
    show b ≠ 7 by omega,
    show b ≠ 8 by omega,
    show b ≠ 9 by omega,
    show b ≠ 10 by omega,
    show b ≠ 11 by omega,
    show b ≠ 12 by omega,
    show b ≠ 13 by omega,
    show b ≠ 14 by omega,
    show b ≠ 15 by omega,
    show b ≠ 16 by omega,
    show b ≠ 17 by omega,
    show b ≠ 18 by omega,
    show b ≠ 19 by omega,
    show b ≠ 20 by omega,
    show b ≠ 21 by omega,
    show b ≠ 22 by omega,
    show b ≠ 23 by omega,
    show b ≠ 24 by omega]

theorem frame_trailer_of_le {l : List Byte} (h : 6 ≤ l.length) :
    frame_trailer l = .ok (l.drop 6,
      ⟨(l.take 1).headD 0, FrameType.fromU8OrRaw (((l.drop 1).take 1).headD 0),
        i32ofNat (leNat ((l.drop 2).take 4))⟩) := by
  have e1 := pTake_of_le (show 1 ≤ l.length by omega)
  have e2 := pTake_of_le (show 1 ≤ (l.drop 1).length by simp; omega)
  have e3 := pLeI32_of_le (show 4 ≤ (l.drop 2).length by simp; omega)
  have hd : (l.drop 1).drop 1 = l.drop 2 := by rw [List.drop_drop]
  have hd2 : (l.drop 2).drop 4 = l.drop 6 := by rw [List.drop_drop]
  simp only [frame_trailer, e1, e2, e3, hd, hd2]

theorem parse_index_of_le {l : List Byte} (h : 10 ≤ l.length) :
    ∃ r : List Byte, ∃ ent : IndexFrameTrailer, parse_index l = .ok (r, ent) := by
  obtain ⟨b0, b1, b2, b3, b4, b5, b6, b7, b8, b9, t, hb⟩ := exists_cons10 h
  rw [hb]
  exact ⟨t, _, parse_index_cons b0 b1 b2 b3 b4 b5 b6 b7 b8 b9 t⟩

/-! ### Claim theorems -/

/-- C3 (counterexample): a GPS payload that decodes successfully can contain
a record with `decoded.latitude < 0` although its north/south hemisphere
byte is `N` (78), not `S` (83): it suffices that the stored latitude field
holds a negative bit pattern (here `-1.0`).  This refutes the unconditional
law `decoded.latitude < 0 ⇔ hemisphere_byte = S`. -/
theorem C3_counterexample :
    parse_gps_frame gpsNegLatSample = .ok [⟨0, 0xBFF0000000000000, 0, 0, 0, 0⟩] ∧
    f64ltZero 0xBFF0000000000000 ∧
    gpsNegLatSample.getD 19 0 = 78 ∧ (78 : Nat) ≠ 83 := by
  refine ⟨by decide, by decide, by decide, by decide⟩

/-- C3 (amended): for every record decoded by `parse_gps_record`, the
decoded latitude is the stored latitude bit pattern negated exactly when
the `N`/`S` byte is `S`; hence whenever the stored latitude is a strictly
positive (non-NaN, nonzero) value, `decoded.latitude < 0 ⇔ byte = S`, and
symmetrically for longitude with `W`. -/
theorem C3_hemisphere_sign (input rest : List Byte) (r : GpsRecord)
    (h : parse_gps_record input = .ok (rest, r)) :
    (f64gtZero (leNat ((input.drop 11).take 8)) →
      (f64ltZero r.latitude ↔ input.getD 19 0 = 83)) ∧
    (f64gtZero (leNat ((input.drop 20).take 8)) →
      (f64ltZero r.longitude ↔ input.getD 28 0 = 87)) := by
  obtain ⟨-, -, hlat, hlon⟩ := parse_gps_record_fields h
  constructor
  · intro hpos
    rw [hlat]
    by_cases hns : input.getD 19 0 = 83
    · rw [if_pos hns]
      exact ⟨fun _ => hns, fun _ => f64ltZero_f64neg hpos⟩
    · rw [if_neg hns]
      exact ⟨fun hc => absurd hc (not_f64ltZero_of_gt hpos), fun hc => absurd hc hns⟩
  · intro hpos
    rw [hlon]
    by_cases hew : input.getD 28 0 = 87
    · rw [if_pos hew]
      exact ⟨fun _ => hew, fun _ => f64ltZero_f64neg hpos⟩
    · rw [if_neg hew]
      exact ⟨fun hc => absurd hc (not_f64ltZero_of_gt hpos), fun hc => absurd hc hew⟩

/-- C3 witness: the amended sign law evaluated on a concrete southern
record whose stored latitude is `1.0`. -/
theorem C3_witness :
    f64ltZero (0xBFF0000000000000 : Nat) ↔ gpsSouthSample.getD 19 0 = 83 := by
  have h := (C3_hemisphere_sign gpsSouthSample []
    ⟨0, 0xBFF0000000000000, 0, 0, 0, 0⟩ (by decide)).1 (by decide)
  exact h

/-- C4 (counterexample): a successful single-record GPS decode consumes 53
bytes — not 38 and not 41: here a full 53-byte record decodes leaving no
rest. -/
theorem C4_counterexample :
    parse_gps_record gps53sample = .ok ([], ⟨0, 0, 0, 0, 0, 0⟩) ∧
    gps53sample.length = 53 ∧ ¬((53 : Nat) = 38 ∨ (53 : Nat) = 41) := by
  refine ⟨by decide, by decide, by decide⟩

/-- C4 (amended): every encoded GPS record has a fixed width of 53 bytes in
both format revisions: a successful single-record decode by
`parse_gps_record` (`main.rs`, u64 timestamp + 3 padding bytes) or by
`parse_gps_record_v2` (`insgps.rs`, u32 timestamp + 7 padding bytes)
consumes exactly 53 bytes of its input. -/
theorem C4_record_width :
    (∀ (input rest : List Byte) (r : GpsRecord),
      parse_gps_record input = .ok (rest, r) → input.length = rest.length + 53) ∧
    (∀ (input rest : List Byte) (r : GpsRecord),
      parse_gps_record_v2 input = .ok (rest, r) → input.length = rest.length + 53) :=
  ⟨fun _ _ _ h => parse_gps_record_consumes h,
   fun _ _ _ h => parse_gps_record_v2_consumes h⟩

/-- C4 witness: the width theorem evaluated on a concrete record. -/
theorem C4_witness : gps53sample.length = ([] : List Byte).length + 53 :=
  C4_record_width.1 gps53sample [] ⟨0, 0, 0, 0, 0, 0⟩ (by decide)

/-- C5: a GPS payload made of `N` well-formed fixed-width records decodes
to exactly `N` records in input order (the i-th decoded record is the
decode of the i-th chunk); a payload whose length is not a multiple of the
53-byte record width always fails, and success forces the length to be a
multiple of 53 (so no truncated record is ever produced). -/
theorem C5_gps_frame :
    (∀ rs : List (List Byte), (∀ r ∈ rs, wfGpsChunk r) →
      ∃ recs : List GpsRecord, parse_gps_frame rs.flatten = .ok recs ∧
        recs.length = rs.length ∧
        ∀ i : Nat, i < rs.length →
          parse_gps_record (rs.getD i []) = .ok ([], recs.getD i ⟨0, 0, 0, 0, 0, 0⟩)) ∧
    (∀ input : List Byte, ¬ (53 ∣ input.length) → ∃ e, parse_gps_frame input = .error e) ∧
    (∀ (input : List Byte) (recs : List GpsRecord),
      parse_gps_frame input = .ok recs → 53 ∣ input.length) :=
  ⟨fun rs hwf => parse_gps_frame_flatten rs hwf,
   fun _ h => parse_gps_frame_not_multiple h,
   fun input recs h => parseGpsLoop_ok_dvd input.length input recs h⟩

/-- C5 witness: a one-record payload decodes (via the first conjunct of the
theorem), and a 1-byte payload fails (via the second). -/
theorem C5_witness :
    (∃ recs : List GpsRecord, parse_gps_frame ([gps53sample] : List (List Byte)).flatten = .ok recs) ∧
    (∃ e, parse_gps_frame [0] = .error e) := by
  constructor
  · obtain ⟨recs, hr, -, -⟩ := C5_gps_frame.1 [gps53sample] (by
      intro r hr
      rw [List.mem_singleton] at hr
      subst hr
      exact ⟨List.replicate 8 0, List.replicate 3 0, List.replicate 8 0,
        List.replicate 8 0, List.replicate 8 0, List.replicate 8 0, List.replicate 8 0,
        78, 69, by decide, by decide, by decide, by decide, by decide, by decide,
        by decide, by decide, by decide, by decide⟩)
    exact ⟨recs, hr⟩
  · exact C5_gps_frame.2.1 [0] (by decide)

/-- C6: decoding an index payload succeeds exactly on payload lengths that
are multiples of 10: a payload of 10-byte chunks yields one entry per chunk
in order; each 10-byte entry decodes as type byte, version byte, `u32 LE`
size, `u32 LE` offset; a non-multiple length fails (with the end-of-input
parse error and no partial entry), and success forces `length / 10`
entries. -/
theorem C6_index_frame :
    (∀ rs : List (List Byte), (∀ r ∈ rs, r.length = 10) →
      ∃ ents : List IndexFrameTrailer, parse_index_frame rs.flatten = .ok ents ∧
        ents.length = rs.length ∧
        ∀ i : Nat, i < rs.length →
          parse_index (rs.getD i []) = .ok ([], ents.getD i ⟨0, .Raw, 0, 0⟩)) ∧
    (∀ (ty v s0 s1 s2 s3 o0 o1 o2 o3 : Byte) (rest : List Byte),
      parse_index (ty :: v :: s0 :: s1 :: s2 :: s3 :: o0 :: o1 :: o2 :: o3 :: rest) =
        .ok (rest, ⟨v, FrameType.fromU8OrRaw ty,
          leNat [s0, s1, s2, s3], leNat [o0, o1, o2, o3]⟩)) ∧
    (∀ input : List Byte, ¬ (10 ∣ input.length) → parse_index_frame input = .error .eof) ∧
    (∀ (input : List Byte) (ents : List IndexFrameTrailer),
      parse_index_frame input = .ok ents →
        10 ∣ input.length ∧ ents.length = input.length / 10) :=
  ⟨fun rs hwf => parse_index_frame_flatten rs hwf,
   parse_index_cons,
   fun _ h => parse_index_frame_not_multiple h,
   fun input ents h => parseIndexLoop_ok_dvd input.length input ents h⟩

/-- C6 witness: a 3-byte index payload fails with the end-of-input error. -/
theorem C6_witness : parse_index_frame [1, 2, 3] = .error PErr.eof :=
  C6_index_frame.2.2.1 [1, 2, 3] (by decide)

/-- C8: an unrecognized frame-type code is never an error: every code
outside the known range (0..24) resolves to the fallback `Raw` variant;
footer and index-entry decoding succeed on any sufficiently long input
whatever the type byte; and a non-`Gps` entry is skipped — the entry loop
continues over the remaining entries without dispatching a typed decoder. -/
theorem C8_unknown_type :
    (∀ b : Nat, 25 ≤ b → FrameType.fromU8OrRaw b = .Raw) ∧
    (∀ l : List Byte, 10 ≤ l.length →
      ∃ r : List Byte, ∃ ent : IndexFrameTrailer, parse_index l = .ok (r, ent)) ∧
    (∀ l : List Byte, 6 ≤ l.length →
      ∃ r : List Byte, ∃ ft : FrameTrailer, frame_trailer l = .ok (r, ft)) ∧
    (∀ (file : List Byte) (mp : Nat) (e : IndexFrameTrailer)
      (rest : List IndexFrameTrailer), e.frame_type ≠ FrameType.Gps →
        processEntries file mp (e :: rest) = processEntries file mp rest) :=
  ⟨fun _ h => fromU8OrRaw_unknown h,
   fun _ h => parse_index_of_le h,
   fun l h => ⟨_, _, frame_trailer_of_le h⟩,
   fun _ _ _ _ h => processEntries_cons_skip h⟩

/-- C8 witness: code 99 maps to `Raw`, an entry with type byte 99 decodes,
and a `Raw` entry is skipped by the entry loop. -/
theorem C8_witness :
    FrameType.fromU8OrRaw 99 = FrameType.Raw ∧
    (∃ r : List Byte, ∃ ent : IndexFrameTrailer,
      parse_index [99, 0, 1, 0, 0, 0, 2, 0, 0, 0] = .ok (r, ent)) ∧
    processEntries [] 0 (⟨0, FrameType.Raw, 5, 5⟩ :: []) = processEntries [] 0 [] :=
  ⟨C8_unknown_type.1 99 (by decide),
   C8_unknown_type.2.1 [99, 0, 1, 0, 0, 0, 2, 0, 0, 0] (by decide),
   C8_unknown_type.2.2.2 [] 0 ⟨0, FrameType.Raw, 5, 5⟩ [] (by decide)⟩

/-- C9: a GPS record decodes only when byte 19 is `N`/`S` and byte 28 is
`E`/`W` (in both format revisions); when byte 19 is invalid, or byte 19 is
valid but byte 28 is invalid, `parse_gps_record` fails with the
one-of-no-match error and produces no record. -/
theorem C9_hemisphere_validation :
    (∀ (input rest : List Byte) (r : GpsRecord),
      parse_gps_record input = .ok (rest, r) →
        input.getD 19 0 ∈ NS ∧ input.getD 28 0 ∈ EW) ∧
    (∀ input : List Byte, 20 ≤ input.length → input.getD 19 0 ∉ NS →
      parse_gps_record input = .error .oneOfNoMatch) ∧
    (∀ input : List Byte, 29 ≤ input.length → input.getD 19 0 ∈ NS →
      input.getD 28 0 ∉ EW → parse_gps_record input = .error .oneOfNoMatch) ∧
    (∀ (input rest : List Byte) (r : GpsRecord),
      parse_gps_record_v2 input = .ok (rest, r) →
        input.getD 19 0 ∈ NS ∧ input.getD 28 0 ∈ EW) :=
  ⟨fun _ _ _ h => ⟨(parse_gps_record_fields h).1, (parse_gps_record_fields h).2.1⟩,
   fun _ h1 h2 => parse_gps_record_bad_ns h1 h2,
   fun _ h1 h2 h3 => parse_gps_record_bad_ew h1 h2 h3,
   fun _ _ _ h => ⟨(parse_gps_record_v2_fields h).1, (parse_gps_record_v2_fields h).2.1⟩⟩

/-- C9 witness: a 53-byte all-zero record (byte 19 = 0, not a hemisphere
code) is rejected with the one-of-no-match error. -/
theorem C9_witness :
    parse_gps_record (List.replicate 53 0) = .error PErr.oneOfNoMatch :=
  C9_hemisphere_validation.2.1 (List.replicate 53 0) (by decide) (by decide)

/-- C7: any trailer buffer whose 32 signature bytes differ from the magic
constant fails to parse with the tag-mismatch (`BadSignature`) error, and
for whole files the run aborts with that error before any index walk — no
records are ever produced. -/
theorem C7_bad_signature :
    (∀ buf : List Byte, buf.length = 78 → (buf.drop 46).take 32 ≠ SIGNATURE →
      parseHeader buf = .error .tagMismatch) ∧
    (∀ file : List Byte, 78 ≤ file.length → file.drop (file.length - 32) ≠ SIGNATURE →
      resolveRun file = .error .tagMismatch ∧
        ∀ recs : List GpsRecord, resolveRun file ≠ .ok recs) := by
  constructor
  · intro buf h78 hsig
    exact parseHeader_err (by omega) hsig
  · intro file hlen hsig
    have s1 : ((file.drop (file.length - 78)).take 78).drop 46
        = ((file.drop (file.length - 78)).drop 46).take 32 := by
      rw [List.drop_take]
    have s2 : (file.drop (file.length - 78)).drop 46 = file.drop (file.length - 32) := by
      rw [List.drop_drop]
      congr 1
      omega
    have s3 : (file.drop (file.length - 32)).length = 32 := by
      simp
      omega
    have hbeq : (((file.drop (file.length - 78)).take 78).drop 46).take 32
        = file.drop (file.length - 32) := by
      rw [s1, s2, List.take_take]
      rw [show min 32 32 = 32 from rfl]
      exact List.take_of_length_le (le_of_eq s3)
    have herr : parseHeader ((file.drop (file.length - 78)).take 78) = .error .tagMismatch := by
      apply parseHeader_err
      · simp
        omega
      · rw [hbeq]
        exact hsig
    have ht : readTrailer file = .error .tagMismatch := by
      rw [readTrailer_eq hlen, herr]
    refine ⟨resolveRun_err_trailer ht, ?_⟩
    intro recs hc
    rw [resolveRun_err_trailer ht] at hc
    cases hc

/-- C7 witness: a concrete 78-byte file whose final signature byte is
corrupted aborts with the tag-mismatch error. -/
theorem C7_witness : resolveRun c7File = .error .tagMismatch :=
  (C7_bad_signature.2 c7File (by decide) (by decide)).1

/-- C10: the trailer reader has exactly one layout.  On the 78-byte buffer:
a parse succeeds if and only if bytes 46..78 equal the signature, in which
case it consumes all 78 bytes as 7 six-byte `(u16 id, u32 size)`
descriptors (descriptor `i` at bytes `6i..6i+6`), a 4-byte little-endian
version at 42..46 and the 32-byte signature at 46..78, with
`metadata_size` taken from the size field of the 7th descriptor (bytes 38..42);
any parse success requires at least 78 bytes (so a 72-byte descriptor-less
trailer is never accepted); and the pipeline always hands `header_parser`
exactly the last 78 bytes of the file. -/
theorem C10_trailer_layout :
    (∀ buf : List Byte, buf.length = 78 → (buf.drop 46).take 32 = SIGNATURE →
      ∃ ms : List TrailerMetadata,
        parseHeader buf = .ok ([],
          ⟨i32ofNat (leNat ((buf.drop 42).take 4)), SIGNATURE, ms,
            leNat ((buf.drop 38).take 4)⟩) ∧
        ms.length = 7 ∧
        ∀ i : Nat, i < 7 →
          ms.getD i ⟨0, 0⟩ =
            ⟨leNat ((buf.drop (6 * i)).take 2), leNat ((buf.drop (6 * i + 2)).take 4)⟩) ∧
    (∀ buf : List Byte, buf.length = 78 → (buf.drop 46).take 32 ≠ SIGNATURE →
      parseHeader buf = .error .tagMismatch) ∧
    (∀ (buf r : List Byte) (t : Trailer), parseHeader buf = .ok (r, t) → 78 ≤ buf.length) ∧
    (∀ file : List Byte, 78 ≤ file.length →
      readTrailer file =
        match parseHeader ((file.drop (file.length - 78)).take 78) with
        | .error e => .error e
        | .ok (_, t) => .ok t) :=
  ⟨fun _ h hs => parseHeader_ok h hs,
   fun _ h hs => parseHeader_err (by omega) hs,
   fun _ _ _ h => parseHeader_ok_length h,
   fun _ h => readTrailer_eq h⟩

/-- C10 witness: the layout theorem evaluated on a concrete valid buffer
(46 zero bytes then the signature) and on a concrete all-zero buffer. -/
theorem C10_witness :
    (∃ ms : List TrailerMetadata,
      parseHeader bufW = .ok ([],
        ⟨i32ofNat (leNat ((bufW.drop 42).take 4)), SIGNATURE, ms,
          leNat ((bufW.drop 38).take 4)⟩) ∧
      ms.length = 7 ∧
      ∀ i : Nat, i < 7 →
        ms.getD i ⟨0, 0⟩ =
          ⟨leNat ((bufW.drop (6 * i)).take 2), leNat ((bufW.drop (6 * i + 2)).take 4)⟩) ∧
    parseHeader (List.replicate 78 0) = .error .tagMismatch :=
  ⟨C10_trailer_layout.1 bufW (by decide) (by decide),
   C10_trailer_layout.2.1 (List.replicate 78 0) (by decide) (by decide)⟩

/-- C1 (counterexample): a file on which resolution succeeds (so it does
not abort) although the 6 bytes at `[file_length - 78 - 6, file_length - 78)`
— the range the claim says the footer is read from, immediately preceding
the 78-byte trailer — parse as a footer of type `Gps`, not `Index`.  The
code reads the footer at `[file_length - 78, file_length - 72)` instead,
inside the region parsed as the trailer. -/
theorem C1_counterexample :
    resolveRun c1File = .ok [] ∧
    c1File.length = 84 ∧
    frame_trailer (c1File.take 6) = .ok ([], ⟨0, FrameType.Gps, 0⟩) ∧
    FrameType.Gps ≠ FrameType.Index := by
  refine ⟨by decide, by decide, by decide, by decide⟩

/-- C1 (amended): for every file whose trailer parses, the 6-byte footer is
read from bytes `[file_length - 78, file_length - 72)` — the first 6 bytes
of the 78-byte trailer region; resolution aborts with the not-`Index` error
unless the type of that footer is `Index`; and, provided
`frame_size + 6 < 2^31` (so the `i32` sum of `main.rs` line 267 does not
wrap), the index payload read is exactly the `frame_size` bytes ending at
`file_length - 78` (reached by seeking backward `frame_size + 6` bytes from
just after the footer). -/
theorem C1_footer_location (file : List Byte) (t : Trailer) (ft : FrameTrailer)
    (hlen : 78 ≤ file.length) (ht : readTrailer file = .ok t)
    (hf : readFooter file = .ok ft) :
    (∃ r : List Byte, frame_trailer ((file.drop (file.length - 78)).take 6) = .ok (r, ft)) ∧
    (ft.frame_type ≠ FrameType.Index → resolveRun file = .error .notIndex) ∧
    (∀ n : Nat, ft.frame_size = (n : Int) → n + 6 < 2 ^ 31 → n + 78 ≤ file.length →
      readIndexPayload file ft = .ok ((file.drop (file.length - 78 - n)).take n)) := by
  have hf2 := hf
  rw [readFooter_eq hlen] at hf2
  refine ⟨?_, ?_, ?_⟩
  · cases hft : frame_trailer ((file.drop (file.length - 78)).take 6) with
    | error e =>
      simp only [hft] at hf2
      cases hf2
    | ok p =>
      obtain ⟨r, ft2⟩ := p
      simp only [hft, Except.ok.injEq] at hf2
      subst hf2
      exact ⟨r, rfl⟩
  · intro hty
    exact resolveRun_notIndex ht hf hty
  · intro n hn hn31 hnlen
    exact readIndexPayload_eq hn hn31 hnlen

/-- C1 witness: the amended location facts evaluated on the concrete file
of the counterexample (whose in-trailer footer has type `Index` and size 0). -/
theorem C1_witness :
    (∃ r : List Byte, frame_trailer ((c1File.drop (c1File.length - 78)).take 6)
      = .ok (r, ⟨1, FrameType.Index, 0⟩)) ∧
    readIndexPayload c1File ⟨1, FrameType.Index, 0⟩
      = .ok ((c1File.drop (c1File.length - 78 - 0)).take 0) := by
  have h := C1_footer_location c1File c1Trailer ⟨1, FrameType.Index, 0⟩
    (by decide) (by decide) (by decide)
  exact ⟨h.1, h.2.2 0 (by decide) (by decide) (by decide)⟩

/-- C2 (counterexample): a file whose single index entry is a `Gps` entry
with `metadata_anchor + frame_offset + frame_size = 100 > 88 = file_length`.
No `OutOfBounds` validation error occurs; instead the resolver attempts the
read, which fails with the `UnexpectedEof` I/O error (`ioEof`) — showing the
seek/allocate/read is performed unchecked. -/
theorem C2_counterexample :
    resolveRun c2File = .error .ioEof ∧
    parse_index_frame (c2File.take 10) = .ok [⟨0, FrameType.Gps, 100, 0⟩] ∧
    metadataPos c2File ⟨0, SIGNATURE,
      [⟨0, 10⟩, ⟨0, 0⟩, ⟨0, 0⟩, ⟨0, 0⟩, ⟨0, 0⟩, ⟨0, 0⟩, ⟨0, 88⟩], 88⟩ = 0 ∧
    c2File.length < 0 + 0 + 100 ∧
    processEntry c2File 0 ⟨0, FrameType.Gps, 100, 0⟩ = .error .ioEof := by
  refine ⟨by decide, by decide, by decide, by decide, by decide⟩

/-- C2 (amended): the resolver performs no bounds validation: for a `Gps`
entry whose range `(metadata_anchor + frame_offset) mod 2^64 + frame_size`
exceeds the file length, it seeks and attempts the exact read
unconditionally, and the entry fails with the `UnexpectedEof` I/O error
(not an `OutOfBounds` validation error), aborting the remaining walk. -/
theorem C2_unchecked_read (file : List Byte) (mp : Nat) (e : IndexFrameTrailer)
    (rest : List IndexFrameTrailer) (hty : e.frame_type = FrameType.Gps)
    (hoob : file.length < (mp + e.frame_offset) % 2 ^ 64 + e.frame_size) :
    processEntry file mp e = .error .ioEof ∧
    processEntries file mp (e :: rest) = .error .ioEof :=
  have h1 := processEntry_gps_oob hty hoob
  ⟨h1, processEntries_cons_err h1⟩

/-- C2 witness: the unchecked-read behavior on a concrete empty file and
out-of-range entry. -/
theorem C2_witness :
    processEntry [] 0 ⟨0, FrameType.Gps, 1, 0⟩ = .error .ioEof ∧
    processEntries [] 0 (⟨0, FrameType.Gps, 1, 0⟩ :: []) = .error .ioEof :=
  C2_unchecked_read [] 0 ⟨0, FrameType.Gps, 1, 0⟩ [] (by decide) (by decide)

end Ginsta
